import Mathlib

/-!
Shallow embedding of `src/crimson/os/cyan_store.cc` (the crimson in-memory
object store, "CyanStore") and proofs of the specification claims about it.

Modelling conventions:
* C++ byte strings (`std::string` keys, buffer contents) are `List Nat`
  (byte lists) with the lexicographic order of `List Nat` from Mathlib,
  which coincides with `std::less<std::string>`.
* `ghobject_t` is `WithTop Nat`: an opaque totally ordered identifier space
  with `⊤` playing the role of `ghobject_t::get_max()`.
* `coll_t` is `Nat`.
* Ordered `std::map`s are association lists kept sorted by key; unordered
  maps (`object_hash`) are plain association lists.  Erasing a key is
  `List.filter`; on unique-key maps this equals erasing the single entry.
* Error codes: `-2` is `-ENOENT`, `-17` is `-EEXIST`, `-22` is `-EINVAL`.
* Machine integers are modelled as `Nat`/`Int`; the byte counter
  `used_bytes` (a C++ `uint64_t` maintained by signed deltas) is an `Int`.
* The classes `Object` and `Collection` live in `cyan_object.{h,cc}` and
  `cyan_collection.{h,cc}`, which are not part of the translated source;
  their operations are modelled from the specification (§4.1) and are
  marked `Modelled from the spec:` below.
-/

/-- Byte string: the model of a C++ `std::string` / byte buffer. -/
abbrev Str := List Nat

/-- Object identifier: the model of `ghobject_t`.  `⊤` models the
distinguished maximum sentinel `ghobject_t::get_max()`. -/
abbrev Oid := WithTop Nat

/-- Model of `ghobject_t::get_max()`. -/
def ghobject_get_max : Oid := ⊤

/-- Lookup in an association list (first entry with the given key), the
model of `find` on C++ maps. -/
def alookup {κ α : Type} [DecidableEq κ] : List (κ × α) → κ → Option α
  | [], _ => none
  | kv :: rest, k => if kv.1 = k then some kv.2 else alookup rest k

/-- Erase a key from an association list, the model of `erase` on C++
maps (which hold at most one entry per key). -/
def aerase {κ α : Type} [DecidableEq κ] (l : List (κ × α)) (k : κ) : List (κ × α) :=
  l.filter (fun kv => decide (kv.1 ≠ k))

/-- Apply a function to the entry stored under a key.  This models an
in-place mutation of the object a C++ map entry points to. -/
def aupdate {κ α : Type} [DecidableEq κ] (l : List (κ × α)) (k : κ) (f : α → α) : List (κ × α) :=
  l.map (fun kv => if kv.1 = k then (kv.1, f kv.2) else kv)

/-- Insert-or-assign on a sorted association list, the model of
`map[k] = v` on a C++ `std::map`. -/
def sortedSet {κ α : Type} [LinearOrder κ] (k : κ) (v : α) : List (κ × α) → List (κ × α)
  | [] => [(k, v)]
  | kv :: rest =>
    if k < kv.1 then (k, v) :: kv :: rest
    else if k = kv.1 then (k, v) :: rest
    else kv :: sortedSet k v rest

/-- Insert that keeps the existing entry on key collision, the model of
`std::map::insert` (which does not overwrite). -/
def sortedInsertKeep {κ α : Type} [LinearOrder κ] (k : κ) (v : α) : List (κ × α) → List (κ × α)
  | [] => [(k, v)]
  | kv :: rest =>
    if k < kv.1 then (k, v) :: kv :: rest
    else if k = kv.1 then kv :: rest
    else kv :: sortedInsertKeep k v rest

/-- Model of `ceph::os::Object` (from `cyan_object.h`, not part of the
translated source).  Content bytes, extended attributes, the ordered
key-value omap, and the omap header blob. -/
structure Object where
  data : List Nat
  xattr : List (Str × List Nat)
  omap : List (Str × List Nat)
  omap_header : List Nat
deriving DecidableEq, Repr

/-- Modelled from the spec: a freshly created object is empty (§4.1,
`get_or_create_object` "creates and inserts an empty one"). -/
def Object.empty : Object := ⟨[], [], [], []⟩

/-- Model of `Object::get_size()`: the current content length. -/
def Object.get_size (o : Object) : Nat := o.data.length

/-- Modelled from the spec: `Object::write(offset, bl)` (§4.1) — write
beyond the current length implicitly zero-extends the gap; the bytes
`bl` replace the window starting at `offset`. -/
def Object.write (o : Object) (offset : Nat) (bl : List Nat) : Object :=
  let base :=
    if o.data.length < offset then o.data ++ List.replicate (offset - o.data.length) 0
    else o.data
  { o with data := base.take offset ++ bl ++ base.drop (offset + bl.length) }

/-- Modelled from the spec: `Object::truncate(size)` (§4.1) — truncate to
a larger size zero-extends, to a smaller size discards trailing bytes. -/
def Object.truncate (o : Object) (size : Nat) : Object :=
  if size < o.data.length then { o with data := o.data.take size }
  else { o with data := o.data ++ List.replicate (size - o.data.length) 0 }

/-- Modelled from the spec: `Object::read(offset, len, out)` (§4.1) —
copies the requested window; the caller clamps it in range beforehand. -/
def Object.read (o : Object) (offset len : Nat) : List Nat :=
  (o.data.drop offset).take len

/-- Model of `ceph::os::Collection` (from `cyan_collection.h`, not part
of the translated source).  `object_map` is the ordered index (a sorted
association list), `object_hash` the unordered one; both hold the same
entries.  The field `exists` of the C++ class is `exists_` here because
`exists` is reserved in Lean. -/
structure Collection where
  cid : Nat
  object_map : List (Oid × Object)
  object_hash : List (Oid × Object)
  bits : Int
  exists_ : Bool
deriving DecidableEq, Repr

/-- Modelled from the spec: a newly constructed `Collection{cid}` has no
objects and is marked existing. -/
def Collection.mkNew (cid : Nat) : Collection := ⟨cid, [], [], 0, true⟩

/-- Modelled from the spec: `Collection::get_object` returns the object
if present, else null; lookup goes through the `object_hash` index. -/
def Collection.get_object (c : Collection) (oid : Oid) : Option Object :=
  alookup c.object_hash oid

/-- Modelled from the spec: `Collection::get_or_create_object` returns
the existing object or creates and inserts an empty one into both
`object_map` and `object_hash`. -/
def Collection.get_or_create_object (c : Collection) (oid : Oid) : Collection × Object :=
  match alookup c.object_hash oid with
  | some o => (c, o)
  | none =>
    ({ c with
        object_map := sortedSet oid Object.empty c.object_map,
        object_hash := (oid, Object.empty) :: c.object_hash },
     Object.empty)

/-- In-place mutation of the shared object stored under `oid`: the C++
code mutates the `ObjectRef` returned by `get_or_create_object`, which is
the same object both indexes point to, so both indexes are updated. -/
def Collection.updateObject (c : Collection) (oid : Oid) (f : Object → Object) : Collection :=
  { c with
      object_map := aupdate c.object_map oid f,
      object_hash := aupdate c.object_hash oid f }

/-- Sum of the content lengths of the objects of one collection
(`Collection::used_bytes()`, used by `mount` and by the store-wide
byte-accounting invariant). -/
def Collection.used_bytes (c : Collection) : Int :=
  (c.object_map.map (fun kv => (kv.2.get_size : Int))).sum

/-- Model of the `CyanStore` state: committed collections, collections
created but not yet committed, the running byte counter, and the
configuration flag `memstore_debug_omit_block_device_write` read through
`local_conf()` (carried in the state since the store never writes it). -/
structure CyanStore where
  coll_map : List (Nat × Collection)
  new_coll_map : List (Nat × Collection)
  used_bytes : Int
  memstore_debug_omit_block_device_write : Bool
deriving DecidableEq, Repr

/-- Model of `CyanStore::_get_collection`. -/
def CyanStore._get_collection (st : CyanStore) (cid : Nat) : Option Collection :=
  alookup st.coll_map cid

/-- Write a mutated collection back into `coll_map`; models the fact
that the C++ code mutates the shared `CollectionRef` in place. -/
def CyanStore.setColl (st : CyanStore) (cid : Nat) (c : Collection) : CyanStore :=
  { st with coll_map := aupdate st.coll_map cid (fun _ => c) }

/-- Model of `CyanStore::_remove`: drop the object from both indexes and
decrement `used_bytes` by its size; `-ENOENT` if the collection or the
object is missing. -/
def CyanStore._remove (st : CyanStore) (cid : Nat) (oid : Oid) : CyanStore × Int :=
  match st._get_collection cid with
  | none => (st, -2)
  | some c =>
    match alookup c.object_hash oid with
    | none => (st, -2)
    | some o =>
      ({ st.setColl cid
          { c with
              object_hash := aerase c.object_hash oid,
              object_map := aerase c.object_map oid } with
         used_bytes := st.used_bytes - o.get_size },
       0)

/-- Model of `CyanStore::_touch`: get-or-create the object. -/
def CyanStore._touch (st : CyanStore) (cid : Nat) (oid : Oid) : CyanStore × Int :=
  match st._get_collection cid with
  | none => (st, -2)
  | some c => (st.setColl cid (c.get_or_create_object oid).1, 0)

/-- Model of `CyanStore::_write`.  The C++ signature carries `len` with
`assert(len == bl.length())`, so `len` is `bl.length` here.  The write
itself (and the byte-counter update) is skipped when `len == 0` or when
the `memstore_debug_omit_block_device_write` flag is set, but the object
is created in both indexes regardless.  `fadvise_flags` is unused by the
source and omitted. -/
def CyanStore._write (st : CyanStore) (cid : Nat) (oid : Oid) (offset : Nat) (bl : List Nat) :
    CyanStore × Int :=
  match st._get_collection cid with
  | none => (st, -2)
  | some c =>
    let co := c.get_or_create_object oid
    if 0 < bl.length ∧ st.memstore_debug_omit_block_device_write = false then
      ({ st.setColl cid (co.1.updateObject oid (fun o => o.write offset bl)) with
         used_bytes :=
           st.used_bytes + (((co.2.write offset bl).get_size : Int) - (co.2.get_size : Int)) },
       0)
    else
      (st.setColl cid co.1, 0)

/-- Model of `CyanStore::_truncate`: `-ENOENT` if the collection or the
object is missing (truncate does not create); a no-op returning 0 when
the omit-device-write flag is set; otherwise resize and adjust
`used_bytes` by the size delta.  `Object::truncate` always returns 0. -/
def CyanStore._truncate (st : CyanStore) (cid : Nat) (oid : Oid) (size : Nat) : CyanStore × Int :=
  match st._get_collection cid with
  | none => (st, -2)
  | some c =>
    match c.get_object oid with
    | none => (st, -2)
    | some o =>
      if st.memstore_debug_omit_block_device_write then (st, 0)
      else
        ({ st.setColl cid (c.updateObject oid (fun ob => ob.truncate size)) with
           used_bytes :=
             st.used_bytes + (((o.truncate size).get_size : Int) - (o.get_size : Int)) },
         0)

/-- Model of `CyanStore::_setattrs`: requires the object to exist, then
assigns each attribute (overwriting on collision). -/
def CyanStore._setattrs (st : CyanStore) (cid : Nat) (oid : Oid)
    (aset : List (Str × List Nat)) : CyanStore × Int :=
  match st._get_collection cid with
  | none => (st, -2)
  | some c =>
    match c.get_object oid with
    | none => (st, -2)
    | some _ =>
      (st.setColl cid
        (c.updateObject oid
          (fun o => { o with xattr := aset.foldl (fun m kv => sortedSet kv.1 kv.2 m) o.xattr })),
       0)

/-- Model of `CyanStore::_create_collection`: `-EEXIST` if the id is
already committed; the matching pending entry must exist or the process
aborts on `assert` (modelled by `none`); on success the pending
collection is promoted with the given partition bits. -/
def CyanStore._create_collection (st : CyanStore) (cid : Nat) (bits : Int) :
    Option (CyanStore × Int) :=
  match alookup st.coll_map cid with
  | some _ => some (st, -17)
  | none =>
    match alookup st.new_coll_map cid with
    | none => none
    | some p =>
      some ({ st with
                coll_map := sortedSet cid { p with bits := bits } st.coll_map,
                new_coll_map := aerase st.new_coll_map cid },
            0)

/-- Model of `CyanStore::_omap_set_values`: get-or-create the object and
merge the batch with `std::map::insert`, which keeps the existing value
on key collision. -/
def CyanStore._omap_set_values (st : CyanStore) (cid : Nat) (oid : Oid)
    (aset : List (Str × List Nat)) : CyanStore × Int :=
  match st._get_collection cid with
  | none => (st, -2)
  | some c =>
    let co := c.get_or_create_object oid
    (st.setColl cid
      (co.1.updateObject oid
        (fun o => { o with omap := aset.foldl (fun m kv => sortedInsertKeep kv.1 kv.2 m) o.omap })),
     0)

/-- Model of `CyanStore::_omap_set_header`: get-or-create the object and
replace its omap header blob. -/
def CyanStore._omap_set_header (st : CyanStore) (cid : Nat) (oid : Oid) (header : List Nat) :
    CyanStore × Int :=
  match st._get_collection cid with
  | none => (st, -2)
  | some c =>
    let co := c.get_or_create_object oid
    (st.setColl cid (co.1.updateObject oid (fun o => { o with omap_header := header })), 0)

/-- Model of `CyanStore::_omap_rmkeys`: get-or-create the object and
erase each requested key (absent keys are silently ignored). -/
def CyanStore._omap_rmkeys (st : CyanStore) (cid : Nat) (oid : Oid) (keys : List Str) :
    CyanStore × Int :=
  match st._get_collection cid with
  | none => (st, -2)
  | some c =>
    let co := c.get_or_create_object oid
    (st.setColl cid
      (co.1.updateObject oid (fun o => { o with omap := keys.foldl (fun m k => aerase m k) o.omap })),
     0)

/-- Model of `CyanStore::_omap_rmkeyrange`: get-or-create the object and
erase, starting from `lower_bound(first)`, every entry whose key is
`<= last`.  On the sorted omap this keeps the entries before the lower
bound and drops the contiguous run of keys `<= last` after it. -/
def CyanStore._omap_rmkeyrange (st : CyanStore) (cid : Nat) (oid : Oid) (first last : Str) :
    CyanStore × Int :=
  match st._get_collection cid with
  | none => (st, -2)
  | some c =>
    let co := c.get_or_create_object oid
    (st.setColl cid
      (co.1.updateObject oid
        (fun o =>
          { o with
              omap :=
                o.omap.takeWhile (fun kv => decide (kv.1 < first)) ++
                  (o.omap.dropWhile (fun kv => decide (kv.1 < first))).dropWhile
                    (fun kv => decide (kv.1 ≤ last)) })),
     0)

/-- Model of `CyanStore::create_new_collection`: register a fresh empty
collection in `new_coll_map`. -/
def CyanStore.create_new_collection (st : CyanStore) (cid : Nat) : CyanStore :=
  { st with new_coll_map := sortedSet cid (Collection.mkNew cid) st.new_coll_map }

/-- Decoded transaction operation, the model of `Transaction::Op` as
dispatched by `CyanStore::do_transaction`.  `write` carries the data
buffer only: the length field always equals `bl.length()` (asserted by
`_write`).  `coll_hint` decodes and discards its payload. -/
inductive Op where
  | nop
  | remove (cid : Nat) (oid : Oid)
  | touch (cid : Nat) (oid : Oid)
  | write (cid : Nat) (oid : Oid) (offset : Nat) (bl : List Nat)
  | truncate (cid : Nat) (oid : Oid) (size : Nat)
  | setattr (cid : Nat) (oid : Oid) (name : Str) (bl : List Nat)
  | mkcoll (cid : Nat) (bits : Int)
  | omap_setkeys (cid : Nat) (oid : Oid) (aset : List (Str × List Nat))
  | omap_setheader (cid : Nat) (oid : Oid) (bl : List Nat)
  | omap_rmkeys (cid : Nat) (oid : Oid) (keys : List Str)
  | omap_rmkeyrange (cid : Nat) (oid : Oid) (first last : Str)
  | coll_hint
deriving DecidableEq, Repr

/-- One item of the encoded operation stream: a decodable operation, or
a position at which decoding throws (`decodeFail`). -/
inductive TxnItem where
  | op (o : Op)
  | decodeFail
deriving DecidableEq, Repr

/-- Dispatch of one decoded operation, the `switch` of
`CyanStore::do_transaction`.  `remove` converts `-ENOENT` to success
(idempotent remove).  `none` models `abort()` — only reachable through
the `_create_collection` assert here, since the operation type is
already decoded.  A `setattr` op builds the singleton attribute map the
dispatcher passes to `_setattrs`. -/
def CyanStore.applyOp (st : CyanStore) : Op → Option (CyanStore × Int)
  | .nop => some (st, 0)
  | .remove cid oid =>
    let sr := st._remove cid oid
    some (sr.1, if sr.2 = -2 then 0 else sr.2)
  | .touch cid oid => some (st._touch cid oid)
  | .write cid oid offset bl => some (st._write cid oid offset bl)
  | .truncate cid oid size => some (st._truncate cid oid size)
  | .setattr cid oid name bl => some (st._setattrs cid oid [(name, bl)])
  | .mkcoll cid bits => st._create_collection cid bits
  | .omap_setkeys cid oid aset => some (st._omap_set_values cid oid aset)
  | .omap_setheader cid oid bl => some (st._omap_set_header cid oid bl)
  | .omap_rmkeys cid oid keys => some (st._omap_rmkeys cid oid keys)
  | .omap_rmkeyrange cid oid first last => some (st._omap_rmkeyrange cid oid first last)
  | .coll_hint => some (st, 0)

/-- One step of the decode/dispatch loop.  A decode exception leaves the
state unchanged and is caught by `do_transaction`, which turns it into
the `-EINVAL` status for the whole transaction; since `-EINVAL < 0`
stops the loop, the catch is modelled as a stopping status here. -/
def CyanStore.applyItem (st : CyanStore) : TxnItem → Option (CyanStore × Int)
  | .op o => st.applyOp o
  | .decodeFail => some (st, -22)

/-- The decode/dispatch loop of `CyanStore::do_transaction`: apply items
in stream order, stop at the first negative status.  `none` models a
process abort inside a handler. -/
def CyanStore.runItems (st : CyanStore) : List TxnItem → Option (CyanStore × Int)
  | [] => some (st, 0)
  | it :: rest =>
    match st.applyItem it with
    | none => none
    | some sr => if sr.2 < 0 then some sr else sr.1.runItems rest

/-- Outcome of `CyanStore::do_transaction`: final state, terminal
status, and whether the fatal consistency check `ceph_assert(r == 0)`
fires (halting the process after dumping the transaction). -/
structure TxnOutcome where
  store : CyanStore
  status : Int
  fatal : Bool
deriving DecidableEq, Repr

/-- Model of `CyanStore::do_transaction` over an already-decoded item
stream.  `none` models `abort()` inside the loop. -/
def CyanStore.do_transaction (st : CyanStore) (items : List TxnItem) : Option TxnOutcome :=
  (st.runItems items).map (fun sr => ⟨sr.1, sr.2, decide (sr.2 < 0)⟩)

/-- Loop body of `CyanStore::list_objects`: walk entries starting at
`lower_bound(start)`; stop with cursor `oid` at the first entry with
`oid >= end` or once `limit` results were collected (`n` is the number
collected so far); cursor `ghobject_t::get_max()` if the walk exhausts
the map. -/
def listLoop (endO : Oid) (limit : Nat) : List (Oid × Object) → Nat → List Oid × Oid
  | [], _ => ([], ghobject_get_max)
  | kv :: rest, n =>
    if endO ≤ kv.1 ∨ limit ≤ n then ([], kv.1)
    else
      let r := listLoop endO limit rest (n + 1)
      (kv.1 :: r.1, r.2)

/-- Model of `CyanStore::list_objects`. -/
def CyanStore.list_objects (c : Collection) (start endO : Oid) (limit : Nat) :
    List Oid × Oid :=
  listLoop endO limit (c.object_map.dropWhile (fun kv => decide (kv.1 < start))) 0

/-- Error kinds of the query paths: the distinguished typed not-found
condition (`EnoentException`) versus the generic hard failure
(`std::runtime_error`).  Messages are dropped. -/
inductive CyanErr where
  | enoent
  | runtimeError
deriving DecidableEq, Repr

/-- Model of `CyanStore::read`: hard failure if the collection is marked
non-existing or the object is absent; an offset at or past the size
reads nothing; `offset == 0 && len == 0` reads the whole object;
otherwise the window is clamped to the object size.  The modelled
`Object::read` cannot fail on the clamped window. -/
def CyanStore.read (c : Collection) (oid : Oid) (offset len : Nat) :
    Except CyanErr (List Nat) :=
  if c.exists_ = false then .error .runtimeError
  else
    match c.get_object oid with
    | none => .error .runtimeError
    | some o =>
      if o.get_size ≤ offset then .ok []
      else
        let l :=
          if len = 0 ∧ offset = 0 then o.get_size
          else if o.get_size < offset + len then o.get_size - offset
          else len
        .ok (o.read offset l)

/-- Model of `CyanStore::get_attr`: the typed not-found condition
(`EnoentException`) both when the object and when the attribute is
absent. -/
def CyanStore.get_attr (c : Collection) (oid : Oid) (name : Str) :
    Except CyanErr (List Nat) :=
  match c.get_object oid with
  | none => .error .enoent
  | some o =>
    match alookup o.xattr name with
    | some v => .ok v
    | none => .error .enoent

/-- Model of `CyanStore::get_attrs`: generic hard failure
(`std::runtime_error`) when the object is absent. -/
def CyanStore.get_attrs (c : Collection) (oid : Oid) :
    Except CyanErr (List (Str × List Nat)) :=
  match c.get_object oid with
  | none => .error .runtimeError
  | some o => .ok o.xattr

/-- Modelled from the spec: the pagination page-size constant
`MAX_KEYS_PER_OMAP_GET_CALL` is declared in `cyan_store.h`, which is not
part of the translated source; the spec fixes only that it is a positive
constant, so the theorems below do not depend on its value. -/
def MAX_KEYS_PER_OMAP_GET_CALL : Nat := 32

/-- Model of the range overload of `CyanStore::omap_get_values`: from
`upper_bound(*start)` (strictly after `start`) or from the beginning,
collect entries in ascending key order while fewer than
`MAX_KEYS_PER_OMAP_GET_CALL` were collected; the completion flag is the
source's constant `true`. -/
def CyanStore.omap_get_values (c : Collection) (oid : Oid) (start : Option Str) :
    Except CyanErr (Bool × List (Str × List Nat)) :=
  match c.get_object oid with
  | none => .error .runtimeError
  | some o =>
    let it : List (Str × List Nat) :=
      match start with
      | some s => o.omap.dropWhile (fun kv => decide (kv.1 ≤ s))
      | none => o.omap
    .ok (true, it.take MAX_KEYS_PER_OMAP_GET_CALL)

/-- Whitespace test on a byte, the model of `isspace` used by the
`read_meta` trimming. -/
def isspaceB (c : Nat) : Bool := c == 32 || (9 ≤ c && c ≤ 13)

/-- Trailing-whitespace trim, the model of
`boost::algorithm::trim_right_if(s, isspace)`. -/
def trimRightWS (s : Str) : Str := (s.reverse.dropWhile isspaceB).reverse

/-- Filesystem-and-identifier state used by `mkfs`: the named files under
the store path (meta entries and the collection manifest) and the
in-memory `osd_fsid` member. -/
structure MkfsState where
  files : List (String × Str)
  osd_fsid : Str
deriving DecidableEq, Repr

/-- Overwrite-or-create a named file. -/
def fset (l : List (String × Str)) (k : String) (v : Str) : List (String × Str) :=
  if (alookup l k).isSome then l.map (fun kv : String × Str => if kv.1 = k then (k, v) else kv)
  else l ++ [(k, v)]

/-- Model of `CyanStore::write_meta`: writes the value with a trailing
newline byte appended. -/
def CyanStore.write_meta (s : MkfsState) (key : String) (value : Str) : MkfsState :=
  { s with files := fset s.files key (value ++ [10]) }

/-- Model of `CyanStore::read_meta`: `-ENOENT` when the file is absent;
otherwise the byte count read and the value trimmed of trailing
whitespace (an empty file reads as `(0, [])`). -/
def CyanStore.read_meta (s : MkfsState) (key : String) : Int × Str :=
  match alookup s.files key with
  | none => (-2, [])
  | some v => if 0 < v.length then ((v.length : Int), trimRightWS v) else (0, [])

/-- Modelled from the spec: `uuid_d` is opaque; the zero uuid is the
empty byte string, formatting is the identity, and `uuid_d::parse`
succeeds exactly on the strings the formatter can produce (non-empty
ones), returning the identifier itself. -/
def uuid_parse (s : Str) : Option Str := if s = [] then none else some s

/-- Modelled from the spec: a stand-in for the nondeterministic
`uuid_d::generate_random()`; the claims do not depend on its value. -/
def uuid_generate_random : Str := [103, 101, 110]

/-- Modelled from the spec: the encoded empty collection manifest
written by `mkfs` (the binary codec is an external collaborator). -/
def encoded_empty_coll_set : Str := [0]

/-- ASCII bytes of "memstore", the type marker value. -/
def memstore_marker : Str := [109, 101, 109, 115, 116, 111, 114, 101]

/-- Model of `CyanStore::mkfs`: adopt (or generate, when the supplied
identifier is zero) and persist the fsid when none is stored; otherwise
the stored fsid must parse and equal the supplied one or the operation
throws.  On the non-throwing paths it then writes the empty collection
manifest and the type marker. -/
def CyanStore.mkfs (s : MkfsState) (new_osd_fsid : Str) : Except String MkfsState :=
  let rm := CyanStore.read_meta s "fsid"
  let step1 : Except String MkfsState :=
    if rm.1 = -2 then
      let fsid := if new_osd_fsid = [] then uuid_generate_random else new_osd_fsid
      .ok (CyanStore.write_meta { s with osd_fsid := fsid } "fsid" fsid)
    else if rm.1 < 0 then .error "read_meta"
    else
      match uuid_parse rm.2 with
      | none => .error "failed to parse fsid"
      | some f =>
        if f ≠ new_osd_fsid then .error "unmatched osd_fsid"
        else .ok { s with osd_fsid := f }
  step1.bind (fun s1 =>
    let s2 := { s1 with files := fset s1.files "collections" encoded_empty_coll_set }
    .ok (CyanStore.write_meta s2 "type" memstore_marker))

/-- Model of `CyanStore::list_collections`: the committed collection
identifiers. -/
def CyanStore.list_collections (st : CyanStore) : List Nat :=
  st.coll_map.map Prod.fst

/-- Repeated listing driven by the returned cursor: call `list_objects`
with `end = ghobject_t::get_max()`, feed the returned cursor back as the
next `start`, stop when the cursor is the maximum sentinel (`fuel`
bounds the number of rounds). -/
def paginate (c : Collection) (limit : Nat) : Oid → Nat → List Oid × Oid
  | start, 0 => ([], start)
  | start, Nat.succ fuel =>
    let r := CyanStore.list_objects c start ghobject_get_max limit
    if r.2 = ghobject_get_max then (r.1, ghobject_get_max)
    else
      let rest := paginate c limit r.2 fuel
      (r.1 ++ rest.1, rest.2)

/-! ### Well-formedness predicates and the byte-accounting invariant -/

/-- Keys of an association list are pairwise distinct (C++ maps hold at
most one entry per key). -/
def keysNodup {κ α : Type} (l : List (κ × α)) : Prop := (l.map Prod.fst).Nodup

/-- Weighted sum of the values of an association list. -/
def asum {κ α : Type} (w : α → Int) (l : List (κ × α)) : Int :=
  (l.map (fun kv => w kv.2)).sum

/-- Well-formedness of a collection: unique object identifiers, and the
two indexes hold exactly the same entries. -/
def CollWF (c : Collection) : Prop :=
  keysNodup c.object_map ∧ c.object_hash.Perm c.object_map

/-- Sum of the content lengths of all live objects across all committed
collections. -/
def totalBytes (st : CyanStore) : Int :=
  (st.coll_map.map (fun kv => Collection.used_bytes kv.2)).sum

/-- Well-formedness of the store: unique collection identifiers, every
committed collection well-formed, every pending collection still empty,
and the running byte counter equal to the live content total. -/
def StoreWF (st : CyanStore) : Prop :=
  keysNodup st.coll_map ∧
  (∀ kv ∈ st.coll_map, CollWF kv.2) ∧
  (∀ kv ∈ st.new_coll_map, kv.2.object_map = [] ∧ kv.2.object_hash = []) ∧
  st.used_bytes = totalBytes st

/-- Weight of an object for byte accounting: its content length. -/
def objSize : Object → Int := fun o => (o.get_size : Int)

instance (l : List (Oid × Object)) : Decidable (keysNodup l) := by
  unfold keysNodup
  infer_instance

instance (l : List (Nat × Collection)) : Decidable (keysNodup l) := by
  unfold keysNodup
  infer_instance

instance (c : Collection) : Decidable (CollWF c) := by
  unfold CollWF
  infer_instance

instance (st : CyanStore) : Decidable (StoreWF st) := by
  unfold StoreWF
  infer_instance

/-! ### Concrete states used by the witnesses -/

/-- Concrete store for the C1 witness: one committed collection holding
one three-byte object. -/
def wObj : Object := { data := [1, 2, 3], xattr := [], omap := [], omap_header := [] }

def wColl : Collection := ⟨1, [(((4 : Nat) : Oid), wObj)], [(((4 : Nat) : Oid), wObj)], 0, true⟩

def wStore : CyanStore := ⟨[(1, wColl)], [], 3, false⟩

/-- Transaction for the C1 witness: an extending write, a shrinking
truncate, an idempotent remove of a missing object, and a real remove. -/
def wItems : List TxnItem :=
  [TxnItem.op (Op.write 1 ((4 : Nat) : Oid) 1 [9, 9, 9]),
   TxnItem.op (Op.truncate 1 ((4 : Nat) : Oid) 2),
   TxnItem.op (Op.remove 1 ((7 : Nat) : Oid)),
   TxnItem.op (Op.remove 1 ((4 : Nat) : Oid))]

def wOut : TxnOutcome :=
  ⟨⟨[(1, ⟨1, [], [], 0, true⟩)], [], 0, false⟩, 0, false⟩


/-- Intermediate store of the C2 witness: `wStore` after a successful
touch of object 5 in collection 1. -/
def c2st1 : CyanStore :=
  ⟨[(1, ⟨1,
      [(((4 : Nat) : Oid), wObj), (((5 : Nat) : Oid), Object.empty)],
      [(((5 : Nat) : Oid), Object.empty), (((4 : Nat) : Oid), wObj)],
      0, true⟩)],
   [], 3, false⟩

/-- Store with the omit-device-write flag set, for the C10 witness. -/
def wStoreFlag : CyanStore := ⟨[(1, wColl)], [], 3, true⟩

/-- Object holding the omap keys a,b,c,d,e used by the C5 witness. -/
def wOmapObj : Object :=
  ⟨[], [], [([97], [1]), ([98], [2]), ([99], [3]), ([100], [4]), ([101], [5])], []⟩

def wOmapColl : Collection :=
  ⟨2, [(((1 : Nat) : Oid), wOmapObj)], [(((1 : Nat) : Oid), wOmapObj)], 0, true⟩

def wOmapStore : CyanStore := ⟨[(2, wOmapColl)], [], 0, false⟩

instance {ε α : Type} [DecidableEq ε] [DecidableEq α] : DecidableEq (Except ε α)
  | .error e, .error e' =>
    if h : e = e' then isTrue (by rw [h]) else isFalse (fun hc => h (Except.error.inj hc))
  | .error _, .ok _ => isFalse Except.noConfusion
  | .ok _, .error _ => isFalse Except.noConfusion
  | .ok a, .ok a' =>
    if h : a = a' then isTrue (by rw [h]) else isFalse (fun hc => h (Except.ok.inj hc))

/-! ### Association-list lemmas -/

theorem alookup_eq_some_mem {κ α : Type} [DecidableEq κ] {l : List (κ × α)} {k : κ} {v : α}
    (h : alookup l k = some v) : (k, v) ∈ l := by
  induction l with
  | nil => simp [alookup] at h
  | cons kv rest ih =>
    obtain ⟨k', v'⟩ := kv
    by_cases hk : k' = k
    · simp [alookup, hk] at h
      simp [hk, h]
    · simp [alookup, hk] at h
      exact List.mem_cons_of_mem _ (ih h)

theorem mem_alookup {κ α : Type} [DecidableEq κ] {l : List (κ × α)} {k : κ} {v : α}
    (hn : keysNodup l) (h : (k, v) ∈ l) : alookup l k = some v := by
  induction l with
  | nil => simp at h
  | cons kv rest ih =>
    obtain ⟨k', v'⟩ := kv
    have hn' : (k' :: rest.map Prod.fst).Nodup := by simpa [keysNodup] using hn
    rcases List.mem_cons.mp h with h1 | h1
    · have hk : k = k' := congrArg Prod.fst h1
      have hv : v = v' := congrArg Prod.snd h1
      subst hk
      subst hv
      simp [alookup]
    · have hkmem : k ∈ rest.map Prod.fst := List.mem_map.mpr ⟨(k, v), h1, rfl⟩
      have hk : k' ≠ k := by
        intro he
        subst he
        exact (List.nodup_cons.mp hn').1 hkmem
      simp only [alookup, hk, if_false]
      exact ih (List.nodup_cons.mp hn').2 h1

theorem alookup_eq_none_iff {κ α : Type} [DecidableEq κ] {l : List (κ × α)} {k : κ} :
    alookup l k = none ↔ k ∉ l.map Prod.fst := by
  induction l with
  | nil => simp [alookup]
  | cons kv rest ih =>
    obtain ⟨k', v'⟩ := kv
    by_cases hk : k' = k
    · simp [alookup, hk]
    · simp [alookup, hk, ih, Ne.symm hk]

theorem keys_aupdate {κ α : Type} [DecidableEq κ] (l : List (κ × α)) (k : κ) (f : α → α) :
    (aupdate l k f).map Prod.fst = l.map Prod.fst := by
  induction l with
  | nil => rfl
  | cons kv rest ih =>
    by_cases hk : kv.1 = k
    · simp [aupdate, hk] at ih ⊢
      exact ih
    · simp [aupdate, hk] at ih ⊢
      exact ih

theorem keys_aerase_sublist {κ α : Type} [DecidableEq κ] (l : List (κ × α)) (k : κ) :
    ((aerase l k).map Prod.fst).Sublist (l.map Prod.fst) :=
  (List.filter_sublist l).map Prod.fst

theorem keysNodup_aerase {κ α : Type} [DecidableEq κ] {l : List (κ × α)} (k : κ)
    (h : keysNodup l) : keysNodup (aerase l k) :=
  List.Nodup.sublist (keys_aerase_sublist l k) h

theorem keysNodup_aupdate {κ α : Type} [DecidableEq κ] {l : List (κ × α)} (k : κ) (f : α → α)
    (h : keysNodup l) : keysNodup (aupdate l k f) := by
  unfold keysNodup
  rw [keys_aupdate]
  exact h

theorem aupdate_eq_self_of_not_mem {κ α : Type} [DecidableEq κ] {l : List (κ × α)} {k : κ}
    (f : α → α) (h : k ∉ l.map Prod.fst) : aupdate l k f = l := by
  induction l with
  | nil => rfl
  | cons kv rest ih =>
    simp at h
    have hk : kv.1 ≠ k := fun he => h.1 he.symm
    simp [aupdate, hk] at ih ⊢
    exact ih h.2

theorem aerase_eq_self_of_not_mem {κ α : Type} [DecidableEq κ] {l : List (κ × α)} {k : κ}
    (h : k ∉ l.map Prod.fst) : aerase l k = l := by
  induction l with
  | nil => rfl
  | cons kv rest ih =>
    simp at h
    have hk : kv.1 ≠ k := fun he => h.1 he.symm
    simp [aerase, hk] at ih ⊢
    exact ih h.2

theorem mem_aupdate {κ α : Type} [DecidableEq κ] {l : List (κ × α)} {k : κ} {f : α → α}
    {kv' : κ × α} (h : kv' ∈ aupdate l k f) :
    kv' ∈ l ∨ ∃ v, (k, v) ∈ l ∧ kv' = (k, f v) := by
  rcases List.mem_map.mp h with ⟨kv, hmem, heq⟩
  by_cases hk : kv.1 = k
  · right
    refine ⟨kv.2, ?_, ?_⟩
    · rw [← hk]
      exact hmem
    · rw [← heq]
      simp [hk]
  · left
    rw [← heq]
    simp [hk]
    exact hmem

theorem mem_aerase {κ α : Type} [DecidableEq κ] {l : List (κ × α)} {k : κ} {kv' : κ × α}
    (h : kv' ∈ aerase l k) : kv' ∈ l :=
  List.mem_of_mem_filter h

theorem aerase_perm {κ α : Type} [DecidableEq κ] {l₁ l₂ : List (κ × α)} (k : κ)
    (h : l₁.Perm l₂) : (aerase l₁ k).Perm (aerase l₂ k) :=
  h.filter _

theorem aupdate_perm {κ α : Type} [DecidableEq κ] {l₁ l₂ : List (κ × α)} (k : κ) (f : α → α)
    (h : l₁.Perm l₂) : (aupdate l₁ k f).Perm (aupdate l₂ k f) :=
  h.map _

theorem sortedSet_perm_of_not_mem {κ α : Type} [LinearOrder κ] {l : List (κ × α)} {k : κ}
    (v : α) (h : k ∉ l.map Prod.fst) : (sortedSet k v l).Perm ((k, v) :: l) := by
  induction l with
  | nil => simp [sortedSet]
  | cons kv rest ih =>
    simp at h
    have hk : k ≠ kv.1 := h.1
    rcases lt_trichotomy k kv.1 with hlt | heq | hgt
    · simp [sortedSet, hlt]
    · exact absurd heq hk
    · have h1 : ¬ k < kv.1 := not_lt_of_gt hgt
      simp only [sortedSet, h1, if_false, hk, ite_false]
      exact ((ih (by simpa using h.2)).cons kv).trans (List.Perm.swap (k, v) kv rest)

theorem alookup_perm_of_nodup {κ α : Type} [DecidableEq κ] {l₁ l₂ : List (κ × α)} (k : κ)
    (h : l₁.Perm l₂) (hn : keysNodup l₂) : alookup l₁ k = alookup l₂ k := by
  have hn1 : keysNodup l₁ := by
    unfold keysNodup at hn ⊢
    exact ((h.map Prod.fst).nodup_iff).mpr hn
  cases e : alookup l₁ k with
  | none =>
    have hk : k ∉ l₁.map Prod.fst := alookup_eq_none_iff.mp e
    have hk2 : k ∉ l₂.map Prod.fst := fun hc => hk ((h.map Prod.fst).mem_iff.mpr hc)
    exact (alookup_eq_none_iff.mpr hk2).symm
  | some v =>
    exact (mem_alookup hn (h.mem_iff.mp (alookup_eq_some_mem e))).symm

theorem alookup_aupdate_self {κ α : Type} [DecidableEq κ] (l : List (κ × α)) (k : κ)
    (f : α → α) : alookup (aupdate l k f) k = (alookup l k).map f := by
  induction l with
  | nil => rfl
  | cons kv rest ih =>
    by_cases hk : kv.1 = k
    · simp [aupdate, alookup, hk]
    · simp [aupdate, alookup, hk] at ih ⊢
      exact ih

theorem alookup_cons {κ α : Type} [DecidableEq κ] (kv : κ × α) (rest : List (κ × α))
    (k : κ) : alookup (kv :: rest) k = if kv.1 = k then some kv.2 else alookup rest k := rfl

theorem aupdate_cons {κ α : Type} [DecidableEq κ] (kv : κ × α) (rest : List (κ × α)) (k : κ)
    (f : α → α) :
    aupdate (kv :: rest) k f = (if kv.1 = k then (kv.1, f kv.2) else kv) :: aupdate rest k f := rfl

theorem aerase_cons {κ α : Type} [DecidableEq κ] (kv : κ × α) (rest : List (κ × α)) (k : κ) :
    aerase (kv :: rest) k = if kv.1 = k then aerase rest k else kv :: aerase rest k := by
  by_cases hk : kv.1 = k
  · simp [aerase, hk]
  · simp [aerase, hk]

theorem asum_cons {κ α : Type} (w : α → Int) (kv : κ × α) (rest : List (κ × α)) :
    asum w (kv :: rest) = w kv.2 + asum w rest := by
  simp [asum]

theorem alookup_aupdate_ne {κ α : Type} [DecidableEq κ] (l : List (κ × α)) {k k' : κ}
    (f : α → α) (h : k ≠ k') : alookup (aupdate l k f) k' = alookup l k' := by
  induction l with
  | nil => rfl
  | cons kv rest ih =>
    rw [aupdate_cons]
    by_cases hk : kv.1 = k
    · have h2 : kv.1 ≠ k' := fun he => h (hk ▸ he)
      rw [if_pos hk, alookup_cons, alookup_cons, if_neg h2, if_neg h2]
      exact ih
    · rw [if_neg hk, alookup_cons, alookup_cons]
      by_cases hk' : kv.1 = k'
      · rw [if_pos hk', if_pos hk']
      · rw [if_neg hk', if_neg hk']
        exact ih

theorem alookup_sortedSet_self {κ α : Type} [LinearOrder κ] (l : List (κ × α)) (k : κ)
    (v : α) : alookup (sortedSet k v l) k = some v := by
  induction l with
  | nil => simp [sortedSet, alookup]
  | cons kv rest ih =>
    rcases lt_trichotomy k kv.1 with hlt | heq | hgt
    · simp [sortedSet, hlt, alookup]
    · simp [sortedSet, lt_irrefl, heq.symm, alookup]
    · have h1 : ¬ k < kv.1 := not_lt_of_gt hgt
      have h2 : k ≠ kv.1 := ne_of_gt hgt
      have h3 : kv.1 ≠ k := ne_of_lt hgt
      simp [sortedSet, h1, h2, alookup, h3]
      exact ih

theorem asum_perm {κ α : Type} (w : α → Int) {l₁ l₂ : List (κ × α)} (h : l₁.Perm l₂) :
    asum w l₁ = asum w l₂ :=
  List.Perm.sum_eq (h.map _)

theorem asum_aupdate {κ α : Type} [DecidableEq κ] (w : α → Int) {l : List (κ × α)} {k : κ}
    {v : α} (f : α → α) (hn : keysNodup l) (hm : (k, v) ∈ l) :
    asum w (aupdate l k f) = asum w l - w v + w (f v) := by
  induction l with
  | nil => simp at hm
  | cons kv rest ih =>
    have hn' : (kv.1 :: rest.map Prod.fst).Nodup := by simpa [keysNodup] using hn
    rw [aupdate_cons, asum_cons, asum_cons]
    rcases List.mem_cons.mp hm with h1 | h1
    · have hk : kv.1 = k := (congrArg Prod.fst h1).symm
      have hv : kv.2 = v := (congrArg Prod.snd h1).symm
      have hrest : k ∉ rest.map Prod.fst := hk ▸ (List.nodup_cons.mp hn').1
      rw [if_pos hk, aupdate_eq_self_of_not_mem f hrest]
      simp only [hv]
      show w (f v) + asum w rest = w v + asum w rest - w v + w (f v)
      ring
    · have hk : kv.1 ≠ k := by
        intro he
        exact (List.nodup_cons.mp hn').1 (he ▸ List.mem_map.mpr ⟨(k, v), h1, rfl⟩)
      rw [if_neg hk, ih (List.nodup_cons.mp hn').2 h1]
      ring

theorem asum_aerase {κ α : Type} [DecidableEq κ] (w : α → Int) {l : List (κ × α)} {k : κ}
    {v : α} (hn : keysNodup l) (hm : (k, v) ∈ l) :
    asum w (aerase l k) = asum w l - w v := by
  induction l with
  | nil => simp at hm
  | cons kv rest ih =>
    have hn' : (kv.1 :: rest.map Prod.fst).Nodup := by simpa [keysNodup] using hn
    rw [aerase_cons, asum_cons]
    rcases List.mem_cons.mp hm with h1 | h1
    · have hk : kv.1 = k := (congrArg Prod.fst h1).symm
      have hv : kv.2 = v := (congrArg Prod.snd h1).symm
      have hrest : k ∉ rest.map Prod.fst := hk ▸ (List.nodup_cons.mp hn').1
      rw [if_pos hk, aerase_eq_self_of_not_mem hrest, hv]
      ring
    · have hk : kv.1 ≠ k := by
        intro he
        exact (List.nodup_cons.mp hn').1 (he ▸ List.mem_map.mpr ⟨(k, v), h1, rfl⟩)
      rw [if_neg hk, asum_cons, ih (List.nodup_cons.mp hn').2 h1]
      ring

theorem asum_aupdate_of_w_eq {κ α : Type} [DecidableEq κ] (w : α → Int) (l : List (κ × α))
    (k : κ) (f : α → α) (hf : ∀ v, w (f v) = w v) : asum w (aupdate l k f) = asum w l := by
  induction l with
  | nil => rfl
  | cons kv rest ih =>
    rw [aupdate_cons, asum_cons, asum_cons, ih]
    by_cases hk : kv.1 = k
    · rw [if_pos hk]
      simp [hf]
    · rw [if_neg hk]

theorem asum_sortedSet_of_not_mem {κ α : Type} [LinearOrder κ] (w : α → Int)
    {l : List (κ × α)} {k : κ} (v : α) (h : k ∉ l.map Prod.fst) :
    asum w (sortedSet k v l) = asum w l + w v := by
  have hp := sortedSet_perm_of_not_mem v h
  rw [asum_perm w hp, asum_cons]
  ring

/-! ### Collection-level well-formedness lemmas -/

theorem used_bytes_eq_asum (c : Collection) :
    c.used_bytes = asum objSize c.object_map := rfl

theorem totalBytes_eq_asum (st : CyanStore) :
    totalBytes st = asum Collection.used_bytes st.coll_map := rfl

theorem CollWF_updateObject {c : Collection} (oid : Oid) (f : Object → Object)
    (hwf : CollWF c) : CollWF (c.updateObject oid f) :=
  ⟨keysNodup_aupdate oid f hwf.1, aupdate_perm oid f hwf.2⟩

theorem CollWF_eraseBoth {c : Collection} (oid : Oid) (hwf : CollWF c) :
    CollWF { c with object_hash := aerase c.object_hash oid,
                    object_map := aerase c.object_map oid } :=
  ⟨keysNodup_aerase oid hwf.1, aerase_perm oid hwf.2⟩

theorem hash_lookup_mem_map {c : Collection} {oid : Oid} {o : Object} (hwf : CollWF c)
    (h : alookup c.object_hash oid = some o) : (oid, o) ∈ c.object_map :=
  hwf.2.mem_iff.mp (alookup_eq_some_mem h)

theorem goc_spec (c : Collection) (oid : Oid) (hwf : CollWF c) :
    CollWF (c.get_or_create_object oid).1 ∧
    (c.get_or_create_object oid).1.used_bytes = c.used_bytes ∧
    (oid, (c.get_or_create_object oid).2) ∈ (c.get_or_create_object oid).1.object_map := by
  cases e : alookup c.object_hash oid with
  | some o =>
    have h1 : c.get_or_create_object oid = (c, o) := by
      simp only [Collection.get_or_create_object, e]
    rw [h1]
    exact ⟨hwf, rfl, hash_lookup_mem_map hwf e⟩
  | none =>
    have hhash : oid ∉ c.object_hash.map Prod.fst := alookup_eq_none_iff.mp e
    have hkm : oid ∉ c.object_map.map Prod.fst :=
      fun hc => hhash ((hwf.2.map Prod.fst).mem_iff.mpr hc)
    have hperm := sortedSet_perm_of_not_mem (l := c.object_map) Object.empty hkm
    have h1 : c.get_or_create_object oid =
        ({ c with
            object_map := sortedSet oid Object.empty c.object_map,
            object_hash := (oid, Object.empty) :: c.object_hash },
         Object.empty) := by
      simp only [Collection.get_or_create_object, e]
    rw [h1]
    refine ⟨⟨?_, ?_⟩, ?_, ?_⟩
    · unfold keysNodup
      rw [(hperm.map Prod.fst).nodup_iff]
      simp only [List.map_cons, List.nodup_cons]
      exact ⟨hkm, hwf.1⟩
    · exact (hwf.2.cons _).trans hperm.symm
    · show asum objSize (sortedSet oid Object.empty c.object_map) = c.used_bytes
      rw [asum_sortedSet_of_not_mem objSize Object.empty hkm, used_bytes_eq_asum]
      simp [objSize, Object.empty, Object.get_size]
    · exact hperm.mem_iff.mpr (List.mem_cons_self _ _)

/-! ### Store-level well-formedness preservation -/

theorem StoreWF_of_setColl_used (st : CyanStore) (cid : Nat) {c : Collection} (c' : Collection)
    (d : Int) (ub' : Int) (hwf : StoreWF st) (hm : (cid, c) ∈ st.coll_map) (hcwf : CollWF c')
    (hub : c'.used_bytes = c.used_bytes + d) (hub' : ub' = st.used_bytes + d) :
    StoreWF { st.setColl cid c' with used_bytes := ub' } := by
  obtain ⟨hn, hcolls, hnew, hused⟩ := hwf
  have hrec : { st.setColl cid c' with used_bytes := ub' } =
      CyanStore.mk (aupdate st.coll_map cid (fun _ => c')) st.new_coll_map ub'
        st.memstore_debug_omit_block_device_write := rfl
  rw [hrec]
  refine ⟨?_, ?_, ?_, ?_⟩
  · show keysNodup (aupdate st.coll_map cid (fun _ => c'))
    exact keysNodup_aupdate cid _ hn
  · intro kv hkv
    have hkv2 : kv ∈ aupdate st.coll_map cid (fun _ => c') := hkv
    rcases mem_aupdate hkv2 with h1 | ⟨v, hv, hkv'⟩
    · exact hcolls kv h1
    · rw [hkv']
      exact hcwf
  · show ∀ kv ∈ st.new_coll_map, kv.2.object_map = [] ∧ kv.2.object_hash = []
    exact hnew
  · show ub' = totalBytes (CyanStore.mk (aupdate st.coll_map cid (fun _ => c'))
      st.new_coll_map ub' st.memstore_debug_omit_block_device_write)
    have ht : totalBytes (CyanStore.mk (aupdate st.coll_map cid (fun _ => c'))
        st.new_coll_map ub' st.memstore_debug_omit_block_device_write) =
        asum Collection.used_bytes (aupdate st.coll_map cid (fun _ => c')) := rfl
    rw [ht, asum_aupdate Collection.used_bytes (fun _ => c') hn hm, hub', hused,
        totalBytes_eq_asum, hub]
    ring

theorem StoreWF_setColl (st : CyanStore) (cid : Nat) {c : Collection} (c' : Collection)
    (hwf : StoreWF st) (hm : (cid, c) ∈ st.coll_map) (hcwf : CollWF c')
    (hub : c'.used_bytes = c.used_bytes) : StoreWF (st.setColl cid c') := by
  have h := StoreWF_of_setColl_used st cid c' 0 st.used_bytes hwf hm hcwf
    (by rw [hub]; ring) (by ring)
  exact h

theorem StoreWF_remove (st : CyanStore) (cid : Nat) (oid : Oid) (hwf : StoreWF st) :
    StoreWF (st._remove cid oid).1 := by
  cases e1 : st._get_collection cid with
  | none =>
    simp only [CyanStore._remove, e1]
    exact hwf
  | some c =>
    cases e2 : alookup c.object_hash oid with
    | none =>
      simp only [CyanStore._remove, e1, e2]
      exact hwf
    | some o =>
      simp only [CyanStore._remove, e1, e2]
      have hm : (cid, c) ∈ st.coll_map := alookup_eq_some_mem e1
      have hcwf : CollWF c := hwf.2.1 (cid, c) hm
      have hmem : (oid, o) ∈ c.object_map := hash_lookup_mem_map hcwf e2
      have herased : CollWF
          { c with
              object_hash := aerase c.object_hash oid,
              object_map := aerase c.object_map oid } := CollWF_eraseBoth oid hcwf
      have hub : Collection.used_bytes
          { c with
              object_hash := aerase c.object_hash oid,
              object_map := aerase c.object_map oid } =
          c.used_bytes + (-(o.get_size : Int)) := by
        show asum objSize (aerase c.object_map oid) = c.used_bytes + (-(o.get_size : Int))
        rw [asum_aerase objSize hcwf.1 hmem, used_bytes_eq_asum]
        simp only [objSize]
        ring
      have h := StoreWF_of_setColl_used st cid _ (-(o.get_size : Int))
        (st.used_bytes - o.get_size) hwf hm herased hub (by ring)
      exact h

theorem StoreWF_touch (st : CyanStore) (cid : Nat) (oid : Oid) (hwf : StoreWF st) :
    StoreWF (st._touch cid oid).1 := by
  cases e1 : st._get_collection cid with
  | none =>
    simp only [CyanStore._touch, e1]
    exact hwf
  | some c =>
    simp only [CyanStore._touch, e1]
    have hm : (cid, c) ∈ st.coll_map := alookup_eq_some_mem e1
    have hcwf : CollWF c := hwf.2.1 (cid, c) hm
    obtain ⟨hg1, hg2, hg3⟩ := goc_spec c oid hcwf
    exact StoreWF_setColl st cid _ hwf hm hg1 hg2

theorem StoreWF_goc_update (st : CyanStore) (cid : Nat) (oid : Oid) {c : Collection}
    (f : Object → Object) (hf : ∀ o, (f o).get_size = o.get_size) (hwf : StoreWF st)
    (e1 : st._get_collection cid = some c) :
    StoreWF (st.setColl cid ((c.get_or_create_object oid).1.updateObject oid f)) := by
  have hm : (cid, c) ∈ st.coll_map := alookup_eq_some_mem e1
  have hcwf : CollWF c := hwf.2.1 (cid, c) hm
  obtain ⟨hg1, hg2, hg3⟩ := goc_spec c oid hcwf
  have hub : ((c.get_or_create_object oid).1.updateObject oid f).used_bytes = c.used_bytes := by
    show asum objSize (aupdate (c.get_or_create_object oid).1.object_map oid f) = c.used_bytes
    rw [asum_aupdate_of_w_eq objSize _ oid f
      (fun v => by
        show ((f v).get_size : Int) = (v.get_size : Int)
        rw [hf v])]
    rw [← used_bytes_eq_asum, hg2]
  exact StoreWF_setColl st cid _ hwf hm (CollWF_updateObject oid f hg1) hub

theorem StoreWF_write (st : CyanStore) (cid : Nat) (oid : Oid) (offset : Nat) (bl : List Nat)
    (hwf : StoreWF st) : StoreWF (st._write cid oid offset bl).1 := by
  cases e1 : st._get_collection cid with
  | none =>
    simp only [CyanStore._write, e1]
    exact hwf
  | some c =>
    simp only [CyanStore._write, e1]
    have hm : (cid, c) ∈ st.coll_map := alookup_eq_some_mem e1
    have hcwf : CollWF c := hwf.2.1 (cid, c) hm
    obtain ⟨hg1, hg2, hg3⟩ := goc_spec c oid hcwf
    by_cases hcond : 0 < bl.length ∧ st.memstore_debug_omit_block_device_write = false
    · rw [if_pos hcond]
      have hub : ((c.get_or_create_object oid).1.updateObject oid
          (fun o => o.write offset bl)).used_bytes =
          c.used_bytes + ((((c.get_or_create_object oid).2.write offset bl).get_size : Int) -
            ((c.get_or_create_object oid).2.get_size : Int)) := by
        show asum objSize (aupdate (c.get_or_create_object oid).1.object_map oid
          (fun o => o.write offset bl)) = _
        rw [asum_aupdate objSize (fun o => o.write offset bl) hg1.1 hg3,
          ← used_bytes_eq_asum, hg2]
        simp only [objSize]
        ring
      have h := StoreWF_of_setColl_used st cid _
        ((((c.get_or_create_object oid).2.write offset bl).get_size : Int) -
          ((c.get_or_create_object oid).2.get_size : Int))
        (st.used_bytes + ((((c.get_or_create_object oid).2.write offset bl).get_size : Int) -
          ((c.get_or_create_object oid).2.get_size : Int)))
        hwf hm (CollWF_updateObject oid _ hg1) hub rfl
      exact h
    · rw [if_neg hcond]
      exact StoreWF_setColl st cid _ hwf hm hg1 hg2

theorem StoreWF_truncate (st : CyanStore) (cid : Nat) (oid : Oid) (size : Nat)
    (hwf : StoreWF st) : StoreWF (st._truncate cid oid size).1 := by
  cases e1 : st._get_collection cid with
  | none =>
    simp only [CyanStore._truncate, e1]
    exact hwf
  | some c =>
    cases e2 : c.get_object oid with
    | none =>
      simp only [CyanStore._truncate, e1, e2]
      exact hwf
    | some o =>
      simp only [CyanStore._truncate, e1, e2]
      by_cases hflag : st.memstore_debug_omit_block_device_write = true
      · rw [if_pos hflag]
        exact hwf
      · rw [if_neg hflag]
        have hm : (cid, c) ∈ st.coll_map := alookup_eq_some_mem e1
        have hcwf : CollWF c := hwf.2.1 (cid, c) hm
        have hmem : (oid, o) ∈ c.object_map := hash_lookup_mem_map hcwf e2
        have hub : (c.updateObject oid (fun ob => ob.truncate size)).used_bytes =
            c.used_bytes + (((o.truncate size).get_size : Int) - (o.get_size : Int)) := by
          show asum objSize (aupdate c.object_map oid (fun ob => ob.truncate size)) = _
          rw [asum_aupdate objSize (fun ob => ob.truncate size) hcwf.1 hmem,
            ← used_bytes_eq_asum]
          simp only [objSize]
          ring
        have h := StoreWF_of_setColl_used st cid _
          (((o.truncate size).get_size : Int) - (o.get_size : Int))
          (st.used_bytes + (((o.truncate size).get_size : Int) - (o.get_size : Int)))
          hwf hm (CollWF_updateObject oid _ hcwf) hub rfl
        exact h

theorem StoreWF_setattrs (st : CyanStore) (cid : Nat) (oid : Oid)
    (aset : List (Str × List Nat)) (hwf : StoreWF st) :
    StoreWF (st._setattrs cid oid aset).1 := by
  cases e1 : st._get_collection cid with
  | none =>
    simp only [CyanStore._setattrs, e1]
    exact hwf
  | some c =>
    cases e2 : c.get_object oid with
    | none =>
      simp only [CyanStore._setattrs, e1, e2]
      exact hwf
    | some o =>
      simp only [CyanStore._setattrs, e1, e2]
      have hm : (cid, c) ∈ st.coll_map := alookup_eq_some_mem e1
      have hcwf : CollWF c := hwf.2.1 (cid, c) hm
      have hub : (c.updateObject oid
          (fun ob => { ob with
            xattr := aset.foldl (fun m kv => sortedSet kv.1 kv.2 m) ob.xattr })).used_bytes =
          c.used_bytes := by
        show asum objSize (aupdate c.object_map oid
          (fun ob => { ob with
            xattr := aset.foldl (fun m kv => sortedSet kv.1 kv.2 m) ob.xattr })) = c.used_bytes
        rw [asum_aupdate_of_w_eq objSize _ oid
          (fun ob => { ob with
            xattr := aset.foldl (fun m kv => sortedSet kv.1 kv.2 m) ob.xattr })
          (fun v => rfl), ← used_bytes_eq_asum]
      exact StoreWF_setColl st cid _ hwf hm (CollWF_updateObject oid _ hcwf) hub

theorem StoreWF_omap_set_values (st : CyanStore) (cid : Nat) (oid : Oid)
    (aset : List (Str × List Nat)) (hwf : StoreWF st) :
    StoreWF (st._omap_set_values cid oid aset).1 := by
  cases e1 : st._get_collection cid with
  | none =>
    simp only [CyanStore._omap_set_values, e1]
    exact hwf
  | some c =>
    simp only [CyanStore._omap_set_values, e1]
    exact StoreWF_goc_update st cid oid _ (fun o => rfl) hwf e1

theorem StoreWF_omap_set_header (st : CyanStore) (cid : Nat) (oid : Oid) (header : List Nat)
    (hwf : StoreWF st) : StoreWF (st._omap_set_header cid oid header).1 := by
  cases e1 : st._get_collection cid with
  | none =>
    simp only [CyanStore._omap_set_header, e1]
    exact hwf
  | some c =>
    simp only [CyanStore._omap_set_header, e1]
    exact StoreWF_goc_update st cid oid _ (fun o => rfl) hwf e1

theorem StoreWF_omap_rmkeys (st : CyanStore) (cid : Nat) (oid : Oid) (keys : List Str)
    (hwf : StoreWF st) : StoreWF (st._omap_rmkeys cid oid keys).1 := by
  cases e1 : st._get_collection cid with
  | none =>
    simp only [CyanStore._omap_rmkeys, e1]
    exact hwf
  | some c =>
    simp only [CyanStore._omap_rmkeys, e1]
    exact StoreWF_goc_update st cid oid _ (fun o => rfl) hwf e1

theorem StoreWF_omap_rmkeyrange (st : CyanStore) (cid : Nat) (oid : Oid) (first last : Str)
    (hwf : StoreWF st) : StoreWF (st._omap_rmkeyrange cid oid first last).1 := by
  cases e1 : st._get_collection cid with
  | none =>
    simp only [CyanStore._omap_rmkeyrange, e1]
    exact hwf
  | some c =>
    simp only [CyanStore._omap_rmkeyrange, e1]
    exact StoreWF_goc_update st cid oid _ (fun o => rfl) hwf e1

theorem StoreWF_create_collection (st : CyanStore) (cid : Nat) (bits : Int)
    (st' : CyanStore) (r : Int) (hwf : StoreWF st)
    (h : st._create_collection cid bits = some (st', r)) : StoreWF st' := by
  obtain ⟨hn, hcolls, hnew, hused⟩ := hwf
  cases e1 : alookup st.coll_map cid with
  | some c0 =>
    simp only [CyanStore._create_collection, e1, Option.some.injEq] at h
    have h1 : st' = st := (congrArg Prod.fst h).symm
    rw [h1]
    exact ⟨hn, hcolls, hnew, hused⟩
  | none =>
    cases e2 : alookup st.new_coll_map cid with
    | none =>
      simp only [CyanStore._create_collection, e1, e2] at h
      exact Option.noConfusion h
    | some p =>
      simp only [CyanStore._create_collection, e1, e2, Option.some.injEq] at h
      have hempty := hnew (cid, p) (alookup_eq_some_mem e2)
      have he1 : p.object_map = [] := hempty.1
      have he2 : p.object_hash = [] := hempty.2
      have hcid : cid ∉ st.coll_map.map Prod.fst := alookup_eq_none_iff.mp e1
      have hperm := sortedSet_perm_of_not_mem (l := st.coll_map) { p with bits := bits } hcid
      have hst' : st' = { st with
          coll_map := sortedSet cid { p with bits := bits } st.coll_map,
          new_coll_map := aerase st.new_coll_map cid } := (congrArg Prod.fst h).symm
      rw [hst']
      refine ⟨?_, ?_, ?_, ?_⟩
      · show keysNodup (sortedSet cid { p with bits := bits } st.coll_map)
        unfold keysNodup
        rw [(hperm.map Prod.fst).nodup_iff]
        simp only [List.map_cons, List.nodup_cons]
        exact ⟨hcid, hn⟩
      · intro kv hkv
        have hkv2 : kv ∈ sortedSet cid { p with bits := bits } st.coll_map := hkv
        rcases List.mem_cons.mp (hperm.mem_iff.mp hkv2) with h1 | h1
        · rw [h1]
          refine ⟨?_, ?_⟩
          · show keysNodup (Collection.object_map { p with bits := bits })
            have he3 : Collection.object_map { p with bits := bits } = p.object_map := rfl
            rw [he3, he1]
            simp [keysNodup]
          · show (Collection.object_hash { p with bits := bits }).Perm
              (Collection.object_map { p with bits := bits })
            have he3 : Collection.object_map { p with bits := bits } = p.object_map := rfl
            have he4 : Collection.object_hash { p with bits := bits } = p.object_hash := rfl
            rw [he3, he4, he1, he2]
        · exact hcolls kv h1
      · intro kv hkv
        have hkv2 : kv ∈ aerase st.new_coll_map cid := hkv
        exact hnew kv (mem_aerase hkv2)
      · show st.used_bytes = totalBytes { st with
          coll_map := sortedSet cid { p with bits := bits } st.coll_map,
          new_coll_map := aerase st.new_coll_map cid }
        have ht : totalBytes { st with
            coll_map := sortedSet cid { p with bits := bits } st.coll_map,
            new_coll_map := aerase st.new_coll_map cid } =
            asum Collection.used_bytes (sortedSet cid { p with bits := bits } st.coll_map) := rfl
        rw [ht, asum_sortedSet_of_not_mem Collection.used_bytes _ hcid, hused,
          totalBytes_eq_asum]
        have hz : Collection.used_bytes { p with bits := bits } = 0 := by
          rw [used_bytes_eq_asum]
          show asum objSize (Collection.object_map { p with bits := bits }) = 0
          have he3 : Collection.object_map { p with bits := bits } = p.object_map := rfl
          rw [he3, he1]
          rfl
        rw [hz]
        ring

theorem StoreWF_applyOp (st : CyanStore) (o : Op) (st' : CyanStore) (r : Int)
    (hwf : StoreWF st) (h : st.applyOp o = some (st', r)) : StoreWF st' := by
  cases o with
  | nop =>
    simp only [CyanStore.applyOp, Option.some.injEq] at h
    have h1 : st' = st := (congrArg Prod.fst h).symm
    rw [h1]
    exact hwf
  | remove cid oid =>
    simp only [CyanStore.applyOp, Option.some.injEq] at h
    have h1 : st' = (st._remove cid oid).1 := (congrArg Prod.fst h).symm
    rw [h1]
    exact StoreWF_remove st cid oid hwf
  | touch cid oid =>
    simp only [CyanStore.applyOp, Option.some.injEq] at h
    have h1 : st' = (st._touch cid oid).1 := (congrArg Prod.fst h).symm
    rw [h1]
    exact StoreWF_touch st cid oid hwf
  | write cid oid offset bl =>
    simp only [CyanStore.applyOp, Option.some.injEq] at h
    have h1 : st' = (st._write cid oid offset bl).1 := (congrArg Prod.fst h).symm
    rw [h1]
    exact StoreWF_write st cid oid offset bl hwf
  | truncate cid oid size =>
    simp only [CyanStore.applyOp, Option.some.injEq] at h
    have h1 : st' = (st._truncate cid oid size).1 := (congrArg Prod.fst h).symm
    rw [h1]
    exact StoreWF_truncate st cid oid size hwf
  | setattr cid oid name bl =>
    simp only [CyanStore.applyOp, Option.some.injEq] at h
    have h1 : st' = (st._setattrs cid oid [(name, bl)]).1 := (congrArg Prod.fst h).symm
    rw [h1]
    exact StoreWF_setattrs st cid oid [(name, bl)] hwf
  | mkcoll cid bits =>
    exact StoreWF_create_collection st cid bits st' r hwf h
  | omap_setkeys cid oid aset =>
    simp only [CyanStore.applyOp, Option.some.injEq] at h
    have h1 : st' = (st._omap_set_values cid oid aset).1 := (congrArg Prod.fst h).symm
    rw [h1]
    exact StoreWF_omap_set_values st cid oid aset hwf
  | omap_setheader cid oid bl =>
    simp only [CyanStore.applyOp, Option.some.injEq] at h
    have h1 : st' = (st._omap_set_header cid oid bl).1 := (congrArg Prod.fst h).symm
    rw [h1]
    exact StoreWF_omap_set_header st cid oid bl hwf
  | omap_rmkeys cid oid keys =>
    simp only [CyanStore.applyOp, Option.some.injEq] at h
    have h1 : st' = (st._omap_rmkeys cid oid keys).1 := (congrArg Prod.fst h).symm
    rw [h1]
    exact StoreWF_omap_rmkeys st cid oid keys hwf
  | omap_rmkeyrange cid oid first last =>
    simp only [CyanStore.applyOp, Option.some.injEq] at h
    have h1 : st' = (st._omap_rmkeyrange cid oid first last).1 := (congrArg Prod.fst h).symm
    rw [h1]
    exact StoreWF_omap_rmkeyrange st cid oid first last hwf
  | coll_hint =>
    simp only [CyanStore.applyOp, Option.some.injEq] at h
    have h1 : st' = st := (congrArg Prod.fst h).symm
    rw [h1]
    exact hwf

theorem StoreWF_applyItem (st : CyanStore) (it : TxnItem) (st' : CyanStore) (r : Int)
    (hwf : StoreWF st) (h : st.applyItem it = some (st', r)) : StoreWF st' := by
  cases it with
  | op o => exact StoreWF_applyOp st o st' r hwf h
  | decodeFail =>
    simp only [CyanStore.applyItem, Option.some.injEq] at h
    have h1 : st' = st := (congrArg Prod.fst h).symm
    rw [h1]
    exact hwf

theorem StoreWF_runItems (items : List TxnItem) : ∀ (st : CyanStore) (sr : CyanStore × Int),
    StoreWF st → st.runItems items = some sr → StoreWF sr.1 := by
  induction items with
  | nil =>
    intro st sr hwf h
    simp only [CyanStore.runItems, Option.some.injEq] at h
    have h1 : sr.1 = st := (congrArg Prod.fst h).symm
    rw [h1]
    exact hwf
  | cons it rest ih =>
    intro st sr hwf h
    simp only [CyanStore.runItems] at h
    cases e : st.applyItem it with
    | none =>
      rw [e] at h
      exact Option.noConfusion h
    | some sr' =>
      rw [e] at h
      have hwf' : StoreWF sr'.1 := StoreWF_applyItem st it sr'.1 sr'.2 hwf (by rw [e])
      by_cases hneg : sr'.2 < 0
      · simp only [if_pos hneg, Option.some.injEq] at h
        rw [← h]
        exact hwf'
      · simp only [if_neg hneg] at h
        exact ih sr'.1 sr hwf' h

/-! ### C1: the byte-accounting invariant -/

/-- C1: for every sequence of transaction operations applied through
`do_transaction` (writes via `_write`, truncates via `_truncate`, removes
via `_remove`, and every other operation of the stream), starting from a
well-formed store, the store's `used_bytes` counter afterwards equals the
sum of the current content lengths of all live objects across all
collections (and the store stays well-formed, so the invariant carries
over any sequence of transactions). -/
theorem c1_used_bytes_invariant (st : CyanStore) (items : List TxnItem) (out : TxnOutcome)
    (hwf : StoreWF st) (h : st.do_transaction items = some out) :
    out.store.used_bytes = totalBytes out.store ∧ StoreWF out.store := by
  unfold CyanStore.do_transaction at h
  cases e : st.runItems items with
  | none =>
    rw [e] at h
    exact Option.noConfusion h
  | some sr =>
    rw [e] at h
    simp only [Option.map_some', Option.some.injEq] at h
    have hwf' : StoreWF sr.1 := StoreWF_runItems items st sr hwf e
    have h1 : out.store = sr.1 := (congrArg TxnOutcome.store h).symm
    rw [h1]
    exact ⟨hwf'.2.2.2, hwf'⟩

theorem c1_used_bytes_invariant_witness :
    StoreWF wStore ∧ wStore.do_transaction wItems = some wOut ∧
      wOut.store.used_bytes = totalBytes wOut.store :=
  ⟨by decide, by decide,
   (c1_used_bytes_invariant wStore wItems wOut (by decide) (by decide)).1⟩

/-! ### C2: transaction error semantics -/

theorem runItems_append (l₁ : List TxnItem) : ∀ (st st₁ : CyanStore) (l₂ : List TxnItem),
    st.runItems l₁ = some (st₁, 0) → st.runItems (l₁ ++ l₂) = st₁.runItems l₂ := by
  induction l₁ with
  | nil =>
    intro st st₁ l₂ h
    simp only [CyanStore.runItems, Option.some.injEq] at h
    have h1 : st₁ = st := (congrArg Prod.fst h).symm
    rw [h1]
    rfl
  | cons it rest ih =>
    intro st st₁ l₂ h
    cases e : st.applyItem it with
    | none =>
      simp only [CyanStore.runItems, e] at h
      exact Option.noConfusion h
    | some sr =>
      simp only [CyanStore.runItems, e] at h
      by_cases hneg : sr.2 < 0
      · rw [if_pos hneg] at h
        simp only [Option.some.injEq] at h
        have h2 : sr.2 = 0 := congrArg Prod.snd h
        rw [h2] at hneg
        exact absurd hneg (by decide)
      · rw [if_neg hneg] at h
        show CyanStore.runItems st (it :: (rest ++ l₂)) = _
        simp only [CyanStore.runItems, e, if_neg hneg]
        exact ih sr.1 st₁ l₂ h

/-- C2: the decode/dispatch loop applies items in stream order and stops
at the first operation whose handler reports a negative status, leaving
every previously applied operation's effects in place (the final state is
exactly the state reached after the failing operation, the remaining
items are not applied); a decode exception is converted to `-EINVAL`
(-22) for the whole transaction with the already-applied prefix kept; the
fatal consistency check fires exactly on a negative terminal status; and
a fully successful stream yields status 0, no fatal check, and the state
folded in stream order. -/
theorem c2_do_transaction_error_semantics (st : CyanStore) (pre : List TxnItem)
    (item : TxnItem) (post : List TxnItem) (st₁ : CyanStore)
    (hpre : st.runItems pre = some (st₁, 0)) :
    (∀ st₂ r, st₁.applyItem item = some (st₂, r) → r < 0 →
        st.do_transaction (pre ++ item :: post) = some ⟨st₂, r, true⟩) ∧
    (item = TxnItem.decodeFail →
        st.do_transaction (pre ++ item :: post) = some ⟨st₁, -22, true⟩) ∧
    (∀ items out, st.do_transaction items = some out → (out.fatal = true ↔ out.status < 0)) ∧
    (∀ stf, st.runItems (pre ++ item :: post) = some (stf, 0) →
        st.do_transaction (pre ++ item :: post) = some ⟨stf, 0, false⟩) := by
  have hrun : st.runItems (pre ++ item :: post) = st₁.runItems (item :: post) :=
    runItems_append pre st st₁ (item :: post) hpre
  refine ⟨?_, ?_, ?_, ?_⟩
  · intro st₂ r he hr
    unfold CyanStore.do_transaction
    rw [hrun]
    show Option.map _ (CyanStore.runItems st₁ (item :: post)) = _
    simp only [CyanStore.runItems, he, if_pos hr, Option.map_some']
    rw [decide_eq_true hr]
  · intro he
    subst he
    unfold CyanStore.do_transaction
    rw [hrun]
    show Option.map _ (CyanStore.runItems st₁ (TxnItem.decodeFail :: post)) = _
    simp only [CyanStore.runItems, CyanStore.applyItem]
    rw [if_pos (by decide : (-22 : Int) < 0)]
    rfl
  · intro items out h
    unfold CyanStore.do_transaction at h
    cases e : st.runItems items with
    | none =>
      rw [e] at h
      exact Option.noConfusion h
    | some sr =>
      rw [e] at h
      simp only [Option.map_some', Option.some.injEq] at h
      have hf : out.fatal = decide (sr.2 < 0) := (congrArg TxnOutcome.fatal h).symm
      have hs : out.status = sr.2 := (congrArg TxnOutcome.status h).symm
      rw [hf, hs, decide_eq_true_eq]
  · intro stf h
    unfold CyanStore.do_transaction
    rw [h, Option.map_some']
    rfl

theorem c2_do_transaction_error_semantics_witness :
    wStore.do_transaction
        ([TxnItem.op (Op.touch 1 ((5 : Nat) : Oid))] ++
          TxnItem.op (Op.truncate 1 ((9 : Nat) : Oid) 0) :: [TxnItem.op Op.nop]) =
      some ⟨c2st1, -2, true⟩ :=
  (c2_do_transaction_error_semantics wStore [TxnItem.op (Op.touch 1 ((5 : Nat) : Oid))]
      (TxnItem.op (Op.truncate 1 ((9 : Nat) : Oid) 0)) [TxnItem.op Op.nop] c2st1
      (by decide)).1 c2st1 (-2) (by decide) (by decide)

/-! ### C6: remove is idempotent -/

theorem remove_applyOp (st : CyanStore) (cid : Nat) (oid : Oid) :
    st.applyOp (Op.remove cid oid) =
      some ((st._remove cid oid).1,
        if (st._remove cid oid).2 = -2 then 0 else (st._remove cid oid).2) := rfl

theorem remove_status_cases (st : CyanStore) (cid : Nat) (oid : Oid) :
    (st._remove cid oid).2 = 0 ∨ (st._remove cid oid).2 = -2 := by
  cases e1 : st._get_collection cid with
  | none =>
    right
    simp only [CyanStore._remove, e1]
  | some c =>
    cases e2 : alookup c.object_hash oid with
    | none =>
      right
      simp only [CyanStore._remove, e1, e2]
    | some o =>
      left
      simp only [CyanStore._remove, e1, e2]

/-- C6: a REMOVE operation in a transaction reports success (status 0)
both when the object exists and when it does not; when the collection or
the object is missing the state is untouched, and when the object exists
it is erased from both indexes and `used_bytes` is decremented by its
size. -/
theorem c6_remove_idempotent (st : CyanStore) (cid : Nat) (oid : Oid) :
    st.applyItem (TxnItem.op (Op.remove cid oid)) = some ((st._remove cid oid).1, 0) ∧
    (st._get_collection cid = none → (st._remove cid oid).1 = st) ∧
    (∀ c, st._get_collection cid = some c → alookup c.object_hash oid = none →
        (st._remove cid oid).1 = st) ∧
    (∀ c o, st._get_collection cid = some c → alookup c.object_hash oid = some o →
        (st._remove cid oid).1 =
          { st.setColl cid
              { c with
                  object_hash := aerase c.object_hash oid,
                  object_map := aerase c.object_map oid } with
            used_bytes := st.used_bytes - o.get_size }) := by
  refine ⟨?_, ?_, ?_, ?_⟩
  · show st.applyOp (Op.remove cid oid) = _
    rw [remove_applyOp]
    rcases remove_status_cases st cid oid with h0 | h2
    · rw [h0, if_neg (show ¬(0 : Int) = -2 by decide)]
    · rw [h2, if_pos rfl]
  · intro h
    simp only [CyanStore._remove, h]
  · intro c h1 h2
    simp only [CyanStore._remove, h1, h2]
  · intro c o h1 h2
    simp only [CyanStore._remove, h1, h2]

theorem c6_remove_idempotent_witness :
    wStore.applyItem (TxnItem.op (Op.remove 1 ((4 : Nat) : Oid))) =
      some ((wStore._remove 1 ((4 : Nat) : Oid)).1, 0) ∧
    (wStore._remove 1 ((7 : Nat) : Oid)).1 = wStore :=
  ⟨(c6_remove_idempotent wStore 1 ((4 : Nat) : Oid)).1,
   (c6_remove_idempotent wStore 1 ((7 : Nat) : Oid)).2.2.1 wColl (by decide) (by decide)⟩

/-! ### C7: read window clamping -/

/-- C7: for an existing collection and object of size `S`, `read` clamps
the window `[offset, offset+len)` to `[0, S)`: an offset at or past `S`
reads nothing, `offset == 0 && len == 0` reads the whole content, a
window overrunning the end yields the bytes from `offset` to `S`, an
in-range window yields exactly its bytes; a collection marked
non-existing or an absent object is a hard failure
(`runtime_error`), not the typed not-found. -/
theorem c7_read_clamps (c : Collection) (oid : Oid) (o : Object) (offset len : Nat)
    (hex : c.exists_ = true) (ho : c.get_object oid = some o) :
    (o.get_size ≤ offset → CyanStore.read c oid offset len = .ok []) ∧
    (CyanStore.read c oid 0 0 = .ok o.data) ∧
    (offset < o.get_size → o.get_size ≤ offset + len →
        CyanStore.read c oid offset len = .ok (o.data.drop offset)) ∧
    (offset < o.get_size → 0 < len → offset + len ≤ o.get_size →
        CyanStore.read c oid offset len = .ok ((o.data.drop offset).take len)) ∧
    (∀ c2 : Collection, ∀ oid2 offset2 len2, c2.exists_ = false →
        CyanStore.read c2 oid2 offset2 len2 = Except.error CyanErr.runtimeError) ∧
    (∀ c2 : Collection, ∀ oid2 offset2 len2, c2.exists_ = true → c2.get_object oid2 = none →
        CyanStore.read c2 oid2 offset2 len2 = Except.error CyanErr.runtimeError) := by
  have hnc : ¬ c.exists_ = false := by
    rw [hex]
    decide
  refine ⟨?_, ?_, ?_, ?_, ?_, ?_⟩
  · intro h
    simp only [CyanStore.read, if_neg hnc, ho, if_pos h]
  · simp only [CyanStore.read, if_neg hnc, ho]
    by_cases h0 : o.get_size ≤ 0
    · rw [if_pos h0]
      have hz : o.data = [] := List.eq_nil_of_length_eq_zero (Nat.le_zero.mp h0)
      rw [hz]
    · rw [if_neg h0]
      have hread : Object.read o 0 o.get_size = o.data := by
        simp [Object.read, Object.get_size]
      simp [hread]
  · intro h1 h2
    simp only [CyanStore.read, if_neg hnc, ho, if_neg (not_le_of_lt h1)]
    by_cases hl0 : len = 0 ∧ offset = 0
    · rw [if_pos hl0]
      have hoff : offset = 0 := hl0.2
      subst hoff
      have : Object.read o 0 o.get_size = o.data := by
        simp [Object.read, Object.get_size]
      rw [this]
      simp
    · rw [if_neg hl0]
      by_cases hlt : o.get_size < offset + len
      · rw [if_pos hlt]
        show Except.ok (Object.read o offset (o.get_size - offset)) = _
        have : Object.read o offset (o.get_size - offset) = o.data.drop offset := by
          unfold Object.read
          apply List.take_of_length_le
          rw [List.length_drop]
          exact le_rfl
        rw [this]
      · rw [if_neg hlt]
        have heq : o.get_size = offset + len := le_antisymm h2 (not_lt.mp hlt)
        show Except.ok (Object.read o offset len) = _
        have : Object.read o offset len = o.data.drop offset := by
          unfold Object.read
          apply List.take_of_length_le
          rw [List.length_drop]
          show o.data.length - offset ≤ len
          rw [show o.data.length = o.get_size from rfl, heq]
          omega
        rw [this]
  · intro h1 hlen h2
    have hl0 : ¬ (len = 0 ∧ offset = 0) := fun hc => by
      rw [hc.1] at hlen
      exact absurd hlen (by decide)
    simp only [CyanStore.read, if_neg hnc, ho, if_neg (not_le_of_lt h1), if_neg hl0,
      if_neg (not_lt.mpr h2)]
    rfl
  · intro c2 oid2 offset2 len2 h
    simp [CyanStore.read, h]
  · intro c2 oid2 offset2 len2 h1 h2
    have hnc2 : ¬ c2.exists_ = false := by
      rw [h1]
      decide
    simp only [CyanStore.read, if_neg hnc2, h2]

theorem c7_read_clamps_witness :
    CyanStore.read wColl ((4 : Nat) : Oid) 0 0 = .ok [1, 2, 3] ∧
    CyanStore.read wColl ((4 : Nat) : Oid) 1 7 = .ok [2, 3] ∧
    CyanStore.read wColl ((4 : Nat) : Oid) 3 1 = .ok [] ∧
    CyanStore.read wColl ((9 : Nat) : Oid) 0 1 = Except.error CyanErr.runtimeError :=
  ⟨(c7_read_clamps wColl ((4 : Nat) : Oid) wObj 0 0 (by decide) (by decide)).2.1,
   (c7_read_clamps wColl ((4 : Nat) : Oid) wObj 1 7 (by decide) (by decide)).2.2.1
     (by decide) (by decide),
   (c7_read_clamps wColl ((4 : Nat) : Oid) wObj 3 1 (by decide) (by decide)).1 (by decide),
   (c7_read_clamps wColl ((4 : Nat) : Oid) wObj 0 1 (by decide) (by decide)).2.2.2.2.2
     wColl ((9 : Nat) : Oid) 0 1 (by decide) (by decide)⟩

/-! ### C9: typed not-found for single-attribute lookup -/

/-- C9: `get_attr` returns the attribute value exactly when both the
object and the named attribute exist; otherwise it signals the
distinguished typed not-found condition (`EnoentException`) in both
absence cases, distinct from the generic hard failure (`runtime_error`)
that the bulk `get_attrs` raises on an absent object. -/
theorem c9_get_attr_enoent (c : Collection) (oid : Oid) (name : Str) :
    (∀ v, CyanStore.get_attr c oid name = .ok v ↔
        ∃ o, c.get_object oid = some o ∧ alookup o.xattr name = some v) ∧
    (c.get_object oid = none →
        CyanStore.get_attr c oid name = Except.error CyanErr.enoent) ∧
    (∀ o, c.get_object oid = some o → alookup o.xattr name = none →
        CyanStore.get_attr c oid name = Except.error CyanErr.enoent) ∧
    (c.get_object oid = none →
        CyanStore.get_attrs c oid = Except.error CyanErr.runtimeError) ∧
    CyanErr.enoent ≠ CyanErr.runtimeError := by
  refine ⟨?_, ?_, ?_, ?_, by decide⟩
  · intro v
    constructor
    · intro h
      cases e1 : c.get_object oid with
      | none =>
        simp only [CyanStore.get_attr, e1] at h
        exact Except.noConfusion h
      | some o =>
        cases e2 : alookup o.xattr name with
        | none =>
          simp only [CyanStore.get_attr, e1, e2] at h
          exact Except.noConfusion h
        | some v' =>
          simp only [CyanStore.get_attr, e1, e2, Except.ok.injEq] at h
          exact ⟨o, rfl, by rw [e2, h]⟩
    · rintro ⟨o, h1, h2⟩
      simp only [CyanStore.get_attr, h1, h2]
  · intro h
    simp only [CyanStore.get_attr, h]
  · intro o h1 h2
    simp only [CyanStore.get_attr, h1, h2]
  · intro h
    simp only [CyanStore.get_attrs, h]

theorem c9_get_attr_enoent_witness :
    CyanStore.get_attr wColl ((9 : Nat) : Oid) [97] = Except.error CyanErr.enoent ∧
    CyanStore.get_attr wColl ((4 : Nat) : Oid) [97] = Except.error CyanErr.enoent ∧
    CyanStore.get_attrs wColl ((9 : Nat) : Oid) = Except.error CyanErr.runtimeError :=
  ⟨(c9_get_attr_enoent wColl ((9 : Nat) : Oid) [97]).2.1 (by decide),
   (c9_get_attr_enoent wColl ((4 : Nat) : Oid) [97]).2.2.1 wObj (by decide) (by decide),
   (c9_get_attr_enoent wColl ((9 : Nat) : Oid) [97]).2.2.2.1 (by decide)⟩

/-! ### C10: the omit-device-write debug flag -/

theorem mem_sortedSet_self {κ α : Type} [LinearOrder κ] (k : κ) (v : α) :
    ∀ l : List (κ × α), (k, v) ∈ sortedSet k v l := by
  intro l
  induction l with
  | nil => simp [sortedSet]
  | cons kv rest ih =>
    rcases lt_trichotomy k kv.1 with hlt | heq | hgt
    · simp [sortedSet, hlt]
    · simp [sortedSet, lt_irrefl, heq]
    · have h1 : ¬ k < kv.1 := not_lt_of_gt hgt
      have h2 : k ≠ kv.1 := ne_of_gt hgt
      simp only [sortedSet, h1, if_false, h2]
      exact List.mem_cons_of_mem _ ih

/-- C10: with the `memstore_debug_omit_block_device_write` flag set (or,
for `_write`, with an empty data buffer), `_write` on an existing
collection returns 0 and changes nothing except that it still inserts an
empty object into both indexes when the target is absent (existing
objects, and `used_bytes`, are untouched); `_truncate` with the flag set
still requires the object to exist (`-ENOENT` otherwise) and changes
nothing at all when it does. -/
theorem c10_omit_device_write (st : CyanStore) (cid : Nat) (oid : Oid) (offset : Nat)
    (bl : List Nat) (size : Nat) (c : Collection) (hc : st._get_collection cid = some c)
    (hflag : st.memstore_debug_omit_block_device_write = true ∨ bl = []) :
    st._write cid oid offset bl = (st.setColl cid (c.get_or_create_object oid).1, 0) ∧
    (st.setColl cid (c.get_or_create_object oid).1).used_bytes = st.used_bytes ∧
    (∀ oid2 o2, c.get_object oid2 = some o2 →
        ((c.get_or_create_object oid).1).get_object oid2 = some o2) ∧
    (c.get_object oid = none →
        ((c.get_or_create_object oid).1).get_object oid = some Object.empty ∧
        (oid, Object.empty) ∈ ((c.get_or_create_object oid).1).object_map) ∧
    (st.memstore_debug_omit_block_device_write = true →
        (∀ o, c.get_object oid = some o → st._truncate cid oid size = (st, 0)) ∧
        (c.get_object oid = none → st._truncate cid oid size = (st, -2))) := by
  refine ⟨?_, rfl, ?_, ?_, ?_⟩
  · have hcond : ¬ (0 < bl.length ∧ st.memstore_debug_omit_block_device_write = false) := by
      rcases hflag with hf | hf
      · intro hx
        rw [hf] at hx
        exact Bool.noConfusion hx.2
      · intro hx
        rw [hf] at hx
        exact absurd hx.1 (by decide)
    simp only [CyanStore._write, hc, if_neg hcond]
  · intro oid2 o2 h
    cases e : alookup c.object_hash oid with
    | some o =>
      have h1 : (c.get_or_create_object oid).1 = c := by
        simp only [Collection.get_or_create_object, e]
      rw [h1]
      exact h
    | none =>
      have h1 : (c.get_or_create_object oid).1 =
          { c with
              object_map := sortedSet oid Object.empty c.object_map,
              object_hash := (oid, Object.empty) :: c.object_hash } := by
        simp only [Collection.get_or_create_object, e]
      rw [h1]
      show alookup ((oid, Object.empty) :: c.object_hash) oid2 = some o2
      rw [alookup_cons]
      have hne : oid ≠ oid2 := by
        intro heq
        rw [heq] at e
        rw [show c.get_object oid2 = alookup c.object_hash oid2 from rfl] at h
        rw [e] at h
        exact Option.noConfusion h
      rw [if_neg hne]
      exact h
  · intro h
    have e : alookup c.object_hash oid = none := h
    have h1 : (c.get_or_create_object oid).1 =
        { c with
            object_map := sortedSet oid Object.empty c.object_map,
            object_hash := (oid, Object.empty) :: c.object_hash } := by
      simp only [Collection.get_or_create_object, e]
    rw [h1]
    constructor
    · show alookup ((oid, Object.empty) :: c.object_hash) oid = some Object.empty
      rw [alookup_cons, if_pos rfl]
    · exact mem_sortedSet_self oid Object.empty _
  · intro hf
    constructor
    · intro o ho
      simp only [CyanStore._truncate, hc, ho, if_pos hf]
    · intro ho
      simp only [CyanStore._truncate, hc, ho]

theorem c10_omit_device_write_witness :
    wStoreFlag._write 1 ((9 : Nat) : Oid) 0 [5, 5] =
      (wStoreFlag.setColl 1 (wColl.get_or_create_object ((9 : Nat) : Oid)).1, 0) ∧
    (wStoreFlag.setColl 1 (wColl.get_or_create_object ((9 : Nat) : Oid)).1).used_bytes =
      wStoreFlag.used_bytes ∧
    wStoreFlag._truncate 1 ((4 : Nat) : Oid) 1 = (wStoreFlag, 0) ∧
    wStoreFlag._truncate 1 ((9 : Nat) : Oid) 1 = (wStoreFlag, -2) :=
  ⟨(c10_omit_device_write wStoreFlag 1 ((9 : Nat) : Oid) 0 [5, 5] 1 wColl (by decide)
      (Or.inl (by decide))).1,
   (c10_omit_device_write wStoreFlag 1 ((9 : Nat) : Oid) 0 [5, 5] 1 wColl (by decide)
      (Or.inl (by decide))).2.1,
   ((c10_omit_device_write wStoreFlag 1 ((4 : Nat) : Oid) 0 [5, 5] 1 wColl (by decide)
      (Or.inl (by decide))).2.2.2.2 (by decide)).1 wObj (by decide),
   ((c10_omit_device_write wStoreFlag 1 ((9 : Nat) : Oid) 0 [5, 5] 1 wColl (by decide)
      (Or.inl (by decide))).2.2.2.2 (by decide)).2 (by decide)⟩

/-! ### Sorted-list lemmas shared by the query paths -/

theorem sorted_dropWhile_lt {α κ : Type} [LinearOrder κ] (key : α → κ) (s : κ) :
    ∀ l : List α, List.Pairwise (fun a b => key a < key b) l →
      l.dropWhile (fun a => decide (key a < s)) = l.filter (fun a => decide (s ≤ key a)) := by
  intro l
  induction l with
  | nil => intro h; rfl
  | cons a rest ih =>
    intro h
    have ha := (List.pairwise_cons.mp h).1
    have hrest := (List.pairwise_cons.mp h).2
    by_cases hlt : key a < s
    · simp [List.dropWhile_cons, List.filter_cons, hlt, not_le_of_lt hlt, ih hrest]
    · have hle : s ≤ key a := not_lt.mp hlt
      have hall : rest.filter (fun b => decide (s ≤ key b)) = rest :=
        List.filter_eq_self.mpr
          (fun b hb => decide_eq_true (le_of_lt (lt_of_le_of_lt hle (ha b hb))))
      simp [List.dropWhile_cons, List.filter_cons, hlt, hle, hall]

theorem sorted_takeWhile_lt {α κ : Type} [LinearOrder κ] (key : α → κ) (s : κ) :
    ∀ l : List α, List.Pairwise (fun a b => key a < key b) l →
      l.takeWhile (fun a => decide (key a < s)) = l.filter (fun a => decide (key a < s)) := by
  intro l
  induction l with
  | nil => intro h; rfl
  | cons a rest ih =>
    intro h
    have ha := (List.pairwise_cons.mp h).1
    have hrest := (List.pairwise_cons.mp h).2
    by_cases hlt : key a < s
    · simp [List.takeWhile_cons, List.filter_cons, hlt, ih hrest]
    · have hnone : rest.filter (fun b => decide (key b < s)) = [] :=
        List.filter_eq_nil_iff.mpr
          (fun b hb => by
            simp only [decide_eq_true_eq]
            exact fun hc => hlt (lt_trans (ha b hb) hc))
      simp [List.takeWhile_cons, List.filter_cons, hlt, hnone]

theorem sorted_dropWhile_le {α κ : Type} [LinearOrder κ] (key : α → κ) (s : κ) :
    ∀ l : List α, List.Pairwise (fun a b => key a < key b) l →
      l.dropWhile (fun a => decide (key a ≤ s)) = l.filter (fun a => decide (s < key a)) := by
  intro l
  induction l with
  | nil => intro h; rfl
  | cons a rest ih =>
    intro h
    have ha := (List.pairwise_cons.mp h).1
    have hrest := (List.pairwise_cons.mp h).2
    by_cases hle : key a ≤ s
    · simp [List.dropWhile_cons, List.filter_cons, hle, not_lt.mpr hle, ih hrest]
    · have hlt : s < key a := not_le.mp hle
      have hall : rest.filter (fun b => decide (s < key b)) = rest :=
        List.filter_eq_self.mpr (fun b hb => decide_eq_true (lt_trans hlt (ha b hb)))
      simp [List.dropWhile_cons, List.filter_cons, hle, hlt, hall]

/-! ### C5: omap range removal -/

theorem rmkeyrange_loop_eq_filter (first last : Str) :
    ∀ m : List (Str × List Nat), List.Pairwise (fun a b : Str × List Nat => a.1 < b.1) m →
      m.takeWhile (fun kv => decide (kv.1 < first)) ++
        (m.dropWhile (fun kv => decide (kv.1 < first))).dropWhile
          (fun kv => decide (kv.1 ≤ last)) =
      m.filter (fun kv => decide (¬ (first ≤ kv.1 ∧ kv.1 ≤ last))) := by
  intro m
  induction m with
  | nil => intro h; rfl
  | cons kv rest ih =>
    intro h
    have ha := (List.pairwise_cons.mp h).1
    have hrest := (List.pairwise_cons.mp h).2
    by_cases hA : kv.1 < first
    · have hQ : ¬ (first ≤ kv.1 ∧ kv.1 ≤ last) := fun hc => absurd hc.1 (not_le_of_lt hA)
      rw [@List.takeWhile_cons_of_pos _ (fun kv : Str × List Nat => decide (kv.1 < first))
          kv rest (decide_eq_true hA),
        @List.dropWhile_cons_of_pos _ (fun kv : Str × List Nat => decide (kv.1 < first))
          kv rest (decide_eq_true hA),
        @List.filter_cons_of_pos _
          (fun kv : Str × List Nat => decide (¬ (first ≤ kv.1 ∧ kv.1 ≤ last)))
          kv rest (decide_eq_true hQ),
        List.cons_append, ih hrest]
    · have hB : first ≤ kv.1 := not_lt.mp hA
      rw [@List.takeWhile_cons_of_neg _ (fun kv : Str × List Nat => decide (kv.1 < first))
          kv rest (by simpa using hA),
        @List.dropWhile_cons_of_neg _ (fun kv : Str × List Nat => decide (kv.1 < first))
          kv rest (by simpa using hA),
        List.nil_append]
      by_cases hC : kv.1 ≤ last
      · have hQ : ¬ (first ≤ kv.1 ∧ kv.1 ≤ last) → False := fun hc => hc ⟨hB, hC⟩
        rw [@List.dropWhile_cons_of_pos _ (fun kv : Str × List Nat => decide (kv.1 ≤ last))
            kv rest (decide_eq_true hC),
          @List.filter_cons_of_neg _
            (fun kv : Str × List Nat => decide (¬ (first ≤ kv.1 ∧ kv.1 ≤ last)))
            kv rest (by simpa using hQ)]
        rw [sorted_dropWhile_le (fun kv : Str × List Nat => kv.1) last rest hrest]
        apply List.filter_congr
        intro b hb
        have hbf : first ≤ b.1 := le_of_lt (lt_of_le_of_lt hB (ha b hb))
        by_cases hbl : b.1 ≤ last
        · simp [hbl, not_lt.mpr hbl, hbf]
        · simp [hbl, not_le.mp hbl, hbf]
      · have hQ : ¬ (first ≤ kv.1 ∧ kv.1 ≤ last) := fun hc => hC hc.2
        rw [@List.dropWhile_cons_of_neg _ (fun kv : Str × List Nat => decide (kv.1 ≤ last))
            kv rest (by simpa using hC),
          @List.filter_cons_of_pos _
            (fun kv : Str × List Nat => decide (¬ (first ≤ kv.1 ∧ kv.1 ≤ last)))
            kv rest (decide_eq_true hQ)]
        rw [List.filter_eq_self.mpr]
        intro b hb
        have hbl : ¬ b.1 ≤ last := fun hc => hC (le_of_lt (lt_of_lt_of_le (ha b hb) hc))
        exact decide_eq_true (fun hcc => hbl hcc.2)

theorem get_collection_setColl (st : CyanStore) (cid : Nat) (c' : Collection) :
    (st.setColl cid c')._get_collection cid = (alookup st.coll_map cid).map (fun _ => c') := by
  show alookup (aupdate st.coll_map cid (fun _ => c')) cid = _
  rw [alookup_aupdate_self]

theorem get_object_updateObject (c : Collection) (oid : Oid) (f : Object → Object) :
    (c.updateObject oid f).get_object oid = (alookup c.object_hash oid).map f := by
  show alookup (aupdate c.object_hash oid f) oid = _
  rw [alookup_aupdate_self]

/-- C5: for an object whose omap is sorted and any `first <= last`,
`_omap_rmkeyrange` succeeds and removes exactly the omap entries whose
key lies in the inclusive lexicographic range `[first, last]`, leaving
all other keys, their values, and the rest of the object intact. -/
theorem c5_omap_rmkeyrange (st : CyanStore) (cid : Nat) (oid : Oid) (first last : Str)
    (c : Collection) (o : Object) (hc : st._get_collection cid = some c)
    (ho : alookup c.object_hash oid = some o)
    (hsorted : List.Pairwise (fun a b : Str × List Nat => a.1 < b.1) o.omap)
    (hfl : first ≤ last) :
    (st._omap_rmkeyrange cid oid first last).2 = 0 ∧
    ∃ c', ((st._omap_rmkeyrange cid oid first last).1)._get_collection cid = some c' ∧
      c'.get_object oid =
        some { o with
                 omap := o.omap.filter
                   (fun kv => decide (¬ (first ≤ kv.1 ∧ kv.1 ≤ last))) } := by
  have hgoc : c.get_or_create_object oid = (c, o) := by
    simp only [Collection.get_or_create_object, ho]
  have hres : st._omap_rmkeyrange cid oid first last =
      (st.setColl cid
        (c.updateObject oid
          (fun ob =>
            { ob with
                omap :=
                  ob.omap.takeWhile (fun kv => decide (kv.1 < first)) ++
                    (ob.omap.dropWhile (fun kv => decide (kv.1 < first))).dropWhile
                      (fun kv => decide (kv.1 ≤ last)) })), 0) := by
    simp only [CyanStore._omap_rmkeyrange, hc, hgoc]
  have hres1 : (st._omap_rmkeyrange cid oid first last).1 =
      st.setColl cid
        (c.updateObject oid
          (fun ob =>
            { ob with
                omap :=
                  ob.omap.takeWhile (fun kv => decide (kv.1 < first)) ++
                    (ob.omap.dropWhile (fun kv => decide (kv.1 < first))).dropWhile
                      (fun kv => decide (kv.1 ≤ last)) })) := by
    rw [hres]
  refine ⟨by rw [hres], ?_⟩
  refine ⟨c.updateObject oid
    (fun ob =>
      { ob with
          omap :=
            ob.omap.takeWhile (fun kv => decide (kv.1 < first)) ++
              (ob.omap.dropWhile (fun kv => decide (kv.1 < first))).dropWhile
                (fun kv => decide (kv.1 ≤ last)) }), ?_, ?_⟩
  · have hc2 : alookup st.coll_map cid = some c := hc
    rw [hres1, get_collection_setColl, hc2]
    rfl
  · rw [get_object_updateObject, ho]
    simp only [Option.map_some', Option.some.injEq]
    rw [rmkeyrange_loop_eq_filter first last o.omap hsorted]

theorem c5_omap_rmkeyrange_witness :
    (wOmapStore._omap_rmkeyrange 2 ((1 : Nat) : Oid) [98] [100]).2 = 0 ∧
    ∃ c', ((wOmapStore._omap_rmkeyrange 2 ((1 : Nat) : Oid) [98] [100]).1)._get_collection 2 =
        some c' ∧
      c'.get_object ((1 : Nat) : Oid) =
        some { wOmapObj with omap := [([97], [1]), ([101], [5])] } := by
  obtain ⟨h1, c', h2, h3⟩ := c5_omap_rmkeyrange wOmapStore 2 ((1 : Nat) : Oid) [98] [100]
    wOmapColl wOmapObj (by decide) (by decide) (by decide) (by decide)
  refine ⟨h1, c', h2, ?_⟩
  rw [h3]
  decide

/-! ### C4: paginated omap range query -/

theorem getLast?_mem_of_eq {α : Type} {l : List α} {a : α} (h : l.getLast? = some a) :
    a ∈ l := by
  rcases List.mem_getLast?_eq_getLast (show a ∈ l.getLast? from h) with ⟨hne, heq⟩
  rw [heq]
  exact List.getLast_mem hne

theorem dropWhile_append_of_all {α : Type} (p : α → Bool) :
    ∀ (l₁ l₂ : List α), (∀ x ∈ l₁, p x = true) →
      (l₁ ++ l₂).dropWhile p = l₂.dropWhile p := by
  intro l₁
  induction l₁ with
  | nil =>
    intro l₂ h
    rfl
  | cons x l₁' ih =>
    intro l₂ h
    rw [List.cons_append, List.dropWhile_cons_of_pos (h x (List.mem_cons_self x l₁'))]
    exact ih l₂ (fun y hy => h y (List.mem_cons_of_mem x hy))

theorem sorted_dropWhile_take_getLast {α κ : Type} [LinearOrder κ] (key : α → κ) :
    ∀ (d : List α) (n : Nat) (a : α),
      List.Pairwise (fun x y => key x < key y) d →
      (d.take n).getLast? = some a →
      d.dropWhile (fun b => decide (key b ≤ key a)) = d.drop (d.take n).length := by
  intro d
  induction d with
  | nil =>
    intro n a hs h2
    simp at h2
  | cons x d' ih =>
    intro n a hs h2
    have hax := (List.pairwise_cons.mp hs).1
    have hrest := (List.pairwise_cons.mp hs).2
    cases n with
    | zero => simp at h2
    | succ m =>
      rw [List.take_succ_cons] at h2 ⊢
      cases e : d'.take m with
      | nil =>
        rw [e] at h2
        have hxa : x = a := by simpa using h2
        subst hxa
        rw [@List.dropWhile_cons_of_pos _ (fun b => decide (key b ≤ key x)) x d' (by simp)]
        rw [sorted_dropWhile_le key (key x) d' hrest]
        rw [List.filter_eq_self.mpr (fun b hb => decide_eq_true (hax b hb))]
        simp
      | cons y t =>
        have h2' : (d'.take m).getLast? = some a := by
          rw [e] at h2 ⊢
          rw [List.getLast?_cons_cons] at h2
          exact h2
        have hamem : a ∈ d' := List.mem_of_mem_take (getLast?_mem_of_eq h2')
        have hxa : key x < key a := hax a hamem
        rw [@List.dropWhile_cons_of_pos _ (fun b => decide (key b ≤ key a)) x d'
          (decide_eq_true (le_of_lt hxa))]
        rw [ih m a hrest h2']
        rw [List.length_cons, List.drop_succ_cons, e]

theorem omap_page_next (m : List (Str × List Nat))
    (hs : List.Pairwise (fun a b : Str × List Nat => a.1 < b.1) m) (k : Str) (v : List Nat)
    (h2 : (m.take MAX_KEYS_PER_OMAP_GET_CALL).getLast? = some (k, v)) :
    m.take MAX_KEYS_PER_OMAP_GET_CALL ++
      (m.dropWhile (fun kv => decide (kv.1 ≤ k))).take MAX_KEYS_PER_OMAP_GET_CALL =
    m.take (MAX_KEYS_PER_OMAP_GET_CALL + MAX_KEYS_PER_OMAP_GET_CALL) := by
  have hL1 : m.dropWhile (fun kv => decide (kv.1 ≤ k)) =
      m.drop (m.take MAX_KEYS_PER_OMAP_GET_CALL).length :=
    sorted_dropWhile_take_getLast (fun kv : Str × List Nat => kv.1) m
      MAX_KEYS_PER_OMAP_GET_CALL (k, v) hs h2
  rw [hL1]
  by_cases hml : m.length ≤ MAX_KEYS_PER_OMAP_GET_CALL
  · rw [List.take_of_length_le hml,
      List.take_of_length_le (le_trans hml (Nat.le_add_right _ _)), List.drop_length]
    simp
  · have hlen : (m.take MAX_KEYS_PER_OMAP_GET_CALL).length = MAX_KEYS_PER_OMAP_GET_CALL := by
      rw [List.length_take]
      exact min_eq_left (le_of_lt (not_le.mp hml))
    rw [hlen, List.take_add]

/-- C4: the range-start omap query returns at most
`MAX_KEYS_PER_OMAP_GET_CALL` entries in ascending lexicographic key
order, all strictly greater than the start key (from the smallest key
when the start is absent), together with the completion flag (the
source's constant `true`); querying again with the last returned key as
start yields the next page with no overlap and no gaps — the two pages
concatenate to the first `2 * MAX` entries after the original start. -/
theorem c4_omap_get_values_range (c : Collection) (oid : Oid) (o : Object)
    (ho : c.get_object oid = some o)
    (hsorted : List.Pairwise (fun a b : Str × List Nat => a.1 < b.1) o.omap) :
    (CyanStore.omap_get_values c oid none =
        .ok (true, o.omap.take MAX_KEYS_PER_OMAP_GET_CALL)) ∧
    (∀ s0 : Str, CyanStore.omap_get_values c oid (some s0) =
        .ok (true, (o.omap.filter (fun kv => decide (s0 < kv.1))).take
          MAX_KEYS_PER_OMAP_GET_CALL)) ∧
    (∀ s0 vs f, CyanStore.omap_get_values c oid s0 = .ok (f, vs) →
        vs.length ≤ MAX_KEYS_PER_OMAP_GET_CALL ∧
        List.Pairwise (fun a b : Str × List Nat => a.1 < b.1) vs ∧
        (∀ s1, s0 = some s1 → ∀ kv ∈ vs, s1 < kv.1)) ∧
    (∀ vs k v vs2, CyanStore.omap_get_values c oid none = .ok (true, vs) →
        vs.getLast? = some (k, v) →
        CyanStore.omap_get_values c oid (some k) = .ok (true, vs2) →
        vs ++ vs2 =
          o.omap.take (MAX_KEYS_PER_OMAP_GET_CALL + MAX_KEYS_PER_OMAP_GET_CALL)) ∧
    (∀ s0 vs k v vs2, CyanStore.omap_get_values c oid (some s0) = .ok (true, vs) →
        vs.getLast? = some (k, v) →
        CyanStore.omap_get_values c oid (some k) = .ok (true, vs2) →
        vs ++ vs2 = (o.omap.dropWhile (fun kv => decide (kv.1 ≤ s0))).take
          (MAX_KEYS_PER_OMAP_GET_CALL + MAX_KEYS_PER_OMAP_GET_CALL)) := by
  have heq1 : CyanStore.omap_get_values c oid none =
      .ok (true, o.omap.take MAX_KEYS_PER_OMAP_GET_CALL) := by
    simp only [CyanStore.omap_get_values, ho]
  have heq2 : ∀ s0 : Str, CyanStore.omap_get_values c oid (some s0) =
      .ok (true, (o.omap.dropWhile (fun kv => decide (kv.1 ≤ s0))).take
        MAX_KEYS_PER_OMAP_GET_CALL) := by
    intro s0
    simp only [CyanStore.omap_get_values, ho]
  refine ⟨heq1, ?_, ?_, ?_, ?_⟩
  · intro s0
    rw [heq2 s0,
      sorted_dropWhile_le (fun kv : Str × List Nat => kv.1) s0 o.omap hsorted]
  · intro s0 vs f h
    cases s0 with
    | none =>
      rw [heq1] at h
      have hv : o.omap.take MAX_KEYS_PER_OMAP_GET_CALL = vs :=
        congrArg Prod.snd (Except.ok.inj h)
      rw [← hv]
      refine ⟨List.length_take_le _ _, hsorted.sublist (List.take_sublist _ _), ?_⟩
      intro s1 hs1
      exact Option.noConfusion hs1
    | some s1 =>
      rw [heq2 s1] at h
      have hv : (o.omap.dropWhile (fun kv => decide (kv.1 ≤ s1))).take
          MAX_KEYS_PER_OMAP_GET_CALL = vs :=
        congrArg Prod.snd (Except.ok.inj h)
      rw [← hv]
      have hdsorted : List.Pairwise (fun a b : Str × List Nat => a.1 < b.1)
          (o.omap.dropWhile (fun kv => decide (kv.1 ≤ s1))) :=
        hsorted.sublist (List.dropWhile_sublist _)
      refine ⟨List.length_take_le _ _, hdsorted.sublist (List.take_sublist _ _), ?_⟩
      intro s2 hs2 kv hkv
      have hs12 : s1 = s2 := Option.some.inj hs2
      subst hs12
      have hkv2 : kv ∈ o.omap.dropWhile (fun kv => decide (kv.1 ≤ s1)) :=
        List.mem_of_mem_take hkv
      rw [sorted_dropWhile_le (fun kv : Str × List Nat => kv.1) s1 o.omap hsorted] at hkv2
      have := List.of_mem_filter hkv2
      exact of_decide_eq_true this
  · intro vs k v vs2 h1 hlast h3
    rw [heq1] at h1
    have hv : o.omap.take MAX_KEYS_PER_OMAP_GET_CALL = vs :=
      congrArg Prod.snd (Except.ok.inj h1)
    rw [heq2 k] at h3
    have hv2 : (o.omap.dropWhile (fun kv => decide (kv.1 ≤ k))).take
        MAX_KEYS_PER_OMAP_GET_CALL = vs2 :=
      congrArg Prod.snd (Except.ok.inj h3)
    rw [← hv, ← hv2]
    exact omap_page_next o.omap hsorted k v (by rw [hv]; exact hlast)
  · intro s0 vs k v vs2 h1 hlast h3
    rw [heq2 s0] at h1
    have hv : (o.omap.dropWhile (fun kv => decide (kv.1 ≤ s0))).take
        MAX_KEYS_PER_OMAP_GET_CALL = vs :=
      congrArg Prod.snd (Except.ok.inj h1)
    rw [heq2 k] at h3
    have hv2 : (o.omap.dropWhile (fun kv => decide (kv.1 ≤ k))).take
        MAX_KEYS_PER_OMAP_GET_CALL = vs2 :=
      congrArg Prod.snd (Except.ok.inj h3)
    have hdsorted : List.Pairwise (fun a b : Str × List Nat => a.1 < b.1)
        (o.omap.dropWhile (fun kv => decide (kv.1 ≤ s0))) :=
      hsorted.sublist (List.dropWhile_sublist _)
    have hlast' : ((o.omap.dropWhile (fun kv => decide (kv.1 ≤ s0))).take
        MAX_KEYS_PER_OMAP_GET_CALL).getLast? = some (k, v) := by
      rw [hv]
      exact hlast
    have hs0k : s0 < k := by
      have hm1 : (k, v) ∈ (o.omap.dropWhile (fun kv => decide (kv.1 ≤ s0))).take
          MAX_KEYS_PER_OMAP_GET_CALL := getLast?_mem_of_eq hlast'
      have hm2 : (k, v) ∈ o.omap.dropWhile (fun kv => decide (kv.1 ≤ s0)) :=
        List.mem_of_mem_take hm1
      rw [sorted_dropWhile_le (fun kv : Str × List Nat => kv.1) s0 o.omap hsorted] at hm2
      have hdec := List.of_mem_filter hm2
      exact of_decide_eq_true hdec
    have habsorb : o.omap.dropWhile (fun kv => decide (kv.1 ≤ k)) =
        (o.omap.dropWhile (fun kv => decide (kv.1 ≤ s0))).dropWhile
          (fun kv => decide (kv.1 ≤ k)) := by
      conv_lhs => rw [← List.takeWhile_append_dropWhile
        (fun kv : Str × List Nat => decide (kv.1 ≤ s0)) o.omap]
      apply dropWhile_append_of_all
      intro x hx
      have hxs' := List.mem_takeWhile_imp hx
      have hxs : x.1 ≤ s0 := of_decide_eq_true hxs'
      exact decide_eq_true (le_of_lt (lt_of_le_of_lt hxs hs0k))
    rw [← hv, ← hv2, habsorb]
    exact omap_page_next (o.omap.dropWhile (fun kv => decide (kv.1 ≤ s0)))
      hdsorted k v hlast'

theorem c4_omap_get_values_range_witness :
    CyanStore.omap_get_values wOmapColl ((1 : Nat) : Oid) none =
      .ok (true, wOmapObj.omap.take MAX_KEYS_PER_OMAP_GET_CALL) ∧
    CyanStore.omap_get_values wOmapColl ((1 : Nat) : Oid) (some [98]) =
      .ok (true, (wOmapObj.omap.filter (fun kv => decide ([98] < kv.1))).take
        MAX_KEYS_PER_OMAP_GET_CALL) ∧
    [([97], [1]), ([98], [2]), ([99], [3]), ([100], [4]), ([101], [5])] ++ ([] : List (Str × List Nat)) =
      wOmapObj.omap.take (MAX_KEYS_PER_OMAP_GET_CALL + MAX_KEYS_PER_OMAP_GET_CALL) :=
  ⟨(c4_omap_get_values_range wOmapColl ((1 : Nat) : Oid) wOmapObj (by decide) (by decide)).1,
   (c4_omap_get_values_range wOmapColl ((1 : Nat) : Oid) wOmapObj (by decide)
     (by decide)).2.1 [98],
   (c4_omap_get_values_range wOmapColl ((1 : Nat) : Oid) wOmapObj (by decide)
     (by decide)).2.2.2.1
     [([97], [1]), ([98], [2]), ([99], [3]), ([100], [4]), ([101], [5])] [101] [5] []
     (by decide) (by decide) (by decide)⟩

/-! ### C3: object listing and pagination -/

theorem takeWhile_all {α : Type} (p : α → Bool) :
    ∀ l : List α, (∀ x ∈ l, p x = true) → l.takeWhile p = l := by
  intro l
  induction l with
  | nil =>
    intro h
    rfl
  | cons x rest ih =>
    intro h
    rw [List.takeWhile_cons_of_pos (h x (List.mem_cons_self x rest))]
    rw [ih (fun y hy => h y (List.mem_cons_of_mem x hy))]

theorem map_fst_filter_key {κ α : Type} (p : κ → Bool) :
    ∀ l : List (κ × α),
      (l.filter (fun kv => p kv.1)).map Prod.fst = (l.map Prod.fst).filter p := by
  intro l
  induction l with
  | nil => rfl
  | cons kv rest ih =>
    by_cases h : p kv.1 = true
    · rw [List.map_cons,
        @List.filter_cons_of_pos _ (fun kv : κ × α => p kv.1) kv rest h,
        List.filter_cons_of_pos h, List.map_cons, ih]
    · rw [List.map_cons,
        @List.filter_cons_of_neg _ (fun kv : κ × α => p kv.1) kv rest h,
        List.filter_cons_of_neg h, ih]

theorem listLoop_fst (endO : Oid) (limit : Nat) :
    ∀ (l : List (Oid × Object)) (n : Nat),
      (listLoop endO limit l n).1 =
        ((l.map Prod.fst).takeWhile (fun oid => decide (oid < endO))).take (limit - n) := by
  intro l
  induction l with
  | nil =>
    intro n
    simp [listLoop]
  | cons kv rest ih =>
    intro n
    by_cases h1 : endO ≤ kv.1
    · have hb : endO ≤ kv.1 ∨ limit ≤ n := Or.inl h1
      simp only [listLoop, if_pos hb, List.map_cons]
      rw [@List.takeWhile_cons_of_neg _ (fun oid : Oid => decide (oid < endO)) kv.1
        (rest.map Prod.fst) (by simpa using not_lt.mpr h1)]
      simp
    · by_cases h2 : limit ≤ n
      · have hb : endO ≤ kv.1 ∨ limit ≤ n := Or.inr h2
        simp only [listLoop, if_pos hb]
        rw [Nat.sub_eq_zero_of_le h2]
        simp
      · have hb : ¬ (endO ≤ kv.1 ∨ limit ≤ n) := by
          intro hc
          rcases hc with hc | hc
          · exact h1 hc
          · exact h2 hc
        simp only [listLoop, if_neg hb, List.map_cons]
        rw [@List.takeWhile_cons_of_pos _ (fun oid : Oid => decide (oid < endO)) kv.1
          (rest.map Prod.fst) (decide_eq_true (not_le.mp h1))]
        have hsub : limit - n = (limit - (n + 1)) + 1 := by omega
        rw [hsub, List.take_succ_cons, ih (n + 1)]

theorem listLoop_tail (endO : Oid) (limit : Nat) :
    ∀ (l : List (Oid × Object)) (n : Nat),
      ∃ tail, l.map Prod.fst = (listLoop endO limit l n).1 ++ tail ∧
        ((tail = [] ∧ (listLoop endO limit l n).2 = ghobject_get_max) ∨
         (∃ x t', tail = x :: t' ∧ (listLoop endO limit l n).2 = x)) := by
  intro l
  induction l with
  | nil =>
    intro n
    exact ⟨[], rfl, Or.inl ⟨rfl, rfl⟩⟩
  | cons kv rest ih =>
    intro n
    by_cases hb : endO ≤ kv.1 ∨ limit ≤ n
    · refine ⟨kv.1 :: rest.map Prod.fst, ?_, Or.inr ⟨kv.1, rest.map Prod.fst, rfl, ?_⟩⟩
      · simp only [listLoop, if_pos hb, List.map_cons, List.nil_append]
      · simp only [listLoop, if_pos hb]
    · obtain ⟨tail, htail, hc⟩ := ih (n + 1)
      refine ⟨tail, ?_, ?_⟩
      · simp only [listLoop, if_neg hb, List.map_cons, List.cons_append]
        rw [htail]
      · simp only [listLoop, if_neg hb]
        exact hc

theorem sorted_dropWhile_lt_decomp {α κ : Type} [LinearOrder κ] (key : α → κ) :
    ∀ (d : List α) (l₁ : List κ) (x : κ) (l₂ : List κ),
      List.Pairwise (fun a b => key a < key b) d →
      d.map key = l₁ ++ x :: l₂ →
      d.dropWhile (fun b => decide (key b < x)) = d.drop l₁.length := by
  intro d
  induction d with
  | nil =>
    intro l₁ x l₂ hs hmap
    exact absurd hmap (by simp)
  | cons b d' ih =>
    intro l₁ x l₂ hs hmap
    have hb := (List.pairwise_cons.mp hs).1
    have hrest := (List.pairwise_cons.mp hs).2
    rw [List.map_cons] at hmap
    cases l₁ with
    | nil =>
      rw [List.nil_append] at hmap
      injection hmap with hx hmap'
      rw [@List.dropWhile_cons_of_neg _ (fun b => decide (key b < x)) b d'
        (by simp [hx])]
      rfl
    | cons k₀ l₁' =>
      rw [List.cons_append] at hmap
      injection hmap with hk hmap'
      have hxmem : x ∈ d'.map key := by
        rw [hmap']
        exact List.mem_append_right _ (List.mem_cons_self x l₂)
      obtain ⟨a, hamem, hax⟩ := List.mem_map.mp hxmem
      have hblt : key b < x := hax ▸ hb a hamem
      rw [@List.dropWhile_cons_of_pos _ (fun b => decide (key b < x)) b d'
        (decide_eq_true hblt)]
      rw [ih l₁' x l₂ hrest hmap']
      rw [List.length_cons, List.drop_succ_cons]

theorem paginate_exact (c : Collection) (limit : Nat) (hlim : 0 < limit)
    (hs : List.Pairwise (fun a b : Oid × Object => a.1 < b.1) c.object_map)
    (hnt : ghobject_get_max ∉ c.object_map.map Prod.fst) :
    ∀ (n : Nat) (s : Oid) (d : List (Oid × Object)),
      c.object_map.dropWhile (fun kv => decide (kv.1 < s)) = d →
      d.length < n →
      paginate c limit s n = (d.map Prod.fst, ghobject_get_max) := by
  intro n
  induction n with
  | zero =>
    intro s d hd hlen
    omega
  | succ n' ih =>
    intro s d hd hlen
    have hdsub : d.Sublist c.object_map := hd ▸ List.dropWhile_sublist _
    have hdsorted : List.Pairwise (fun a b : Oid × Object => a.1 < b.1) d :=
      hs.sublist hdsub
    have hr : CyanStore.list_objects c s ghobject_get_max limit =
        listLoop ghobject_get_max limit d 0 := by
      unfold CyanStore.list_objects
      rw [hd]
    have hall : ∀ oid ∈ d.map Prod.fst, decide (oid < (ghobject_get_max : Oid)) = true := by
      intro oid hoid
      have hmem : oid ∈ c.object_map.map Prod.fst := (hdsub.map Prod.fst).subset hoid
      have hne : oid ≠ ghobject_get_max := fun he => hnt (he ▸ hmem)
      exact decide_eq_true (lt_top_iff_ne_top.mpr hne)
    have hfst : (listLoop ghobject_get_max limit d 0).1 = (d.map Prod.fst).take limit := by
      rw [listLoop_fst, Nat.sub_zero, takeWhile_all _ _ hall]
    have hstep : paginate c limit s (n' + 1) =
        (if (CyanStore.list_objects c s ghobject_get_max limit).2 = ghobject_get_max
         then ((CyanStore.list_objects c s ghobject_get_max limit).1, ghobject_get_max)
         else ((CyanStore.list_objects c s ghobject_get_max limit).1 ++
               (paginate c limit (CyanStore.list_objects c s ghobject_get_max limit).2 n').1,
               (paginate c limit (CyanStore.list_objects c s ghobject_get_max limit).2 n').2)) :=
      rfl
    obtain ⟨tail, htail, hcases⟩ := listLoop_tail ghobject_get_max limit d 0
    rcases hcases with ⟨htnil, hcur⟩ | ⟨x, t', htx, hcur⟩
    · rw [htnil, List.append_nil] at htail
      rw [hfst] at htail
      rw [hstep, hr, if_pos hcur, hfst, ← htail]
    · have hxmem : x ∈ d.map Prod.fst := by
        rw [htail, htx]
        exact List.mem_append_right _ (List.mem_cons_self x t')
      have hxmem2 : x ∈ c.object_map.map Prod.fst := (hdsub.map Prod.fst).subset hxmem
      have hxne : x ≠ ghobject_get_max := fun he => hnt (he ▸ hxmem2)
      have hlimlt : limit < d.length := by
        by_contra hcon
        have hcon2 : d.length ≤ limit := not_lt.mp hcon
        have : (d.map Prod.fst).take limit = d.map Prod.fst :=
          List.take_of_length_le (by rw [List.length_map]; exact hcon2)
        rw [hfst, this, htx] at htail
        have := congrArg List.length htail
        simp at this
      have hlen1 : ((d.map Prod.fst).take limit).length = limit := by
        rw [List.length_take, List.length_map]
        exact min_eq_left (le_of_lt hlimlt)
      have hd2 : d = c.object_map.filter (fun kv => decide (s ≤ kv.1)) := by
        rw [← hd]
        exact sorted_dropWhile_lt (fun kv : Oid × Object => kv.1) s c.object_map hs
      have hsx : s ≤ x := by
        obtain ⟨a, hamem, hax⟩ := List.mem_map.mp hxmem
        have hmemf : a ∈ c.object_map.filter (fun kv => decide (s ≤ kv.1)) := hd2 ▸ hamem
        have := List.of_mem_filter hmemf
        exact hax ▸ of_decide_eq_true this
      have habsorb : c.object_map.dropWhile (fun kv => decide (kv.1 < x)) =
          d.dropWhile (fun kv => decide (kv.1 < x)) := by
        conv_lhs => rw [← List.takeWhile_append_dropWhile
          (fun kv : Oid × Object => decide (kv.1 < s)) c.object_map, hd]
        apply dropWhile_append_of_all
        intro y hy
        have hy2 := List.mem_takeWhile_imp hy
        have hys : y.1 < s := of_decide_eq_true hy2
        exact decide_eq_true (lt_of_lt_of_le hys hsx)
      have htail2 : d.map Prod.fst = (d.map Prod.fst).take limit ++ x :: t' := by
        conv_lhs => rw [htail]
        rw [hfst, htx]
      have hdecomp : d.dropWhile (fun kv => decide (kv.1 < x)) =
          d.drop ((d.map Prod.fst).take limit).length :=
        sorted_dropWhile_lt_decomp (fun kv : Oid × Object => kv.1) d
          ((d.map Prod.fst).take limit) x t' hdsorted htail2
      have hnext : c.object_map.dropWhile (fun kv => decide (kv.1 < x)) = d.drop limit := by
        rw [habsorb, hdecomp, hlen1]
      have hlen2 : (d.drop limit).length < n' := by
        rw [List.length_drop]
        omega
      have hih := ih x (d.drop limit) hnext hlen2
      rw [hstep, hr, hcur, if_neg hxne, hfst, hih, List.map_drop, List.take_append_drop]

theorem dropWhile_lt_zero_oid (l : List (Oid × Object)) :
    l.dropWhile (fun kv => decide (kv.1 < ((0 : Nat) : Oid))) = l := by
  cases l with
  | nil => rfl
  | cons kv rest =>
    have hnot : ¬ kv.1 < ((0 : Nat) : Oid) := by
      induction kv.1 using WithTop.recTopCoe with
      | top => exact not_top_lt
      | coe k =>
        intro hc
        exact absurd (WithTop.coe_lt_coe.mp hc) (by omega)
    exact List.dropWhile_cons_of_neg (by simpa using hnot)

/-- C3 (amended): `list_objects` returns, in ascending identifier order,
the identifiers of the collection lying in `[start, end)`, truncated to
at most `limit` entries; the sorted entries from `start` onwards split
into the returned page and a remainder whose head — the first excluded
identifier — is the returned cursor (the maximum sentinel when the walk
exhausted the map); and for every positive limit, repeated calls over
`[minimum, maximum)` feeding the cursor back as `start` enumerate every
object exactly once, ending with the maximum sentinel cursor.  The
positivity restriction on `limit` in the last part is forced by the
`limit = 0` counterexample. -/
theorem c3_list_objects (c : Collection) (start endO : Oid) (limit : Nat)
    (objects : List Oid) (next : Oid)
    (hsorted : List.Pairwise (fun a b : Oid × Object => a.1 < b.1) c.object_map)
    (h : CyanStore.list_objects c start endO limit = (objects, next)) :
    objects = ((c.object_map.map Prod.fst).filter
        (fun oid => decide (start ≤ oid ∧ oid < endO))).take limit ∧
    List.Pairwise (fun a b : Oid => a < b) objects ∧
    objects.length ≤ limit ∧
    (∃ tail, (c.object_map.dropWhile (fun kv => decide (kv.1 < start))).map Prod.fst
        = objects ++ tail ∧
      ((tail = [] ∧ next = ghobject_get_max) ∨ (∃ x t', tail = x :: t' ∧ next = x))) ∧
    (0 < limit → ghobject_get_max ∉ c.object_map.map Prod.fst →
      ∃ n, paginate c limit ((0 : Nat) : Oid) n =
        (c.object_map.map Prod.fst, ghobject_get_max)) := by
  have hkeysorted : List.Pairwise (fun a b : Oid => a < b) (c.object_map.map Prod.fst) :=
    List.Pairwise.map Prod.fst (fun a b hab => hab) hsorted
  have hobj : objects = (listLoop endO limit
      (c.object_map.dropWhile (fun kv => decide (kv.1 < start))) 0).1 :=
    (congrArg Prod.fst h).symm
  have hnext : next = (listLoop endO limit
      (c.object_map.dropWhile (fun kv => decide (kv.1 < start))) 0).2 :=
    (congrArg Prod.snd h).symm
  have hd : c.object_map.dropWhile (fun kv => decide (kv.1 < start)) =
      c.object_map.filter (fun kv => decide (start ≤ kv.1)) :=
    sorted_dropWhile_lt (fun kv : Oid × Object => kv.1) start c.object_map hsorted
  have hmapd : (c.object_map.dropWhile (fun kv => decide (kv.1 < start))).map Prod.fst =
      (c.object_map.map Prod.fst).filter (fun oid => decide (start ≤ oid)) := by
    rw [hd]
    exact map_fst_filter_key (fun oid => decide (start ≤ oid)) c.object_map
  have hfsorted : List.Pairwise (fun a b : Oid => a < b)
      ((c.object_map.map Prod.fst).filter (fun oid => decide (start ≤ oid))) :=
    hkeysorted.filter _
  have htw : ((c.object_map.map Prod.fst).filter
        (fun oid => decide (start ≤ oid))).takeWhile (fun oid => decide (oid < endO)) =
      ((c.object_map.map Prod.fst).filter
        (fun oid => decide (start ≤ oid))).filter (fun oid => decide (oid < endO)) :=
    sorted_takeWhile_lt (fun o : Oid => o) endO _ hfsorted
  have hcomb : ((c.object_map.map Prod.fst).filter
        (fun oid => decide (start ≤ oid))).filter (fun oid => decide (oid < endO)) =
      (c.object_map.map Prod.fst).filter
        (fun oid => decide (start ≤ oid ∧ oid < endO)) := by
    rw [List.filter_filter]
    apply List.filter_congr
    intro a ha
    by_cases h1 : start ≤ a
    · by_cases h2 : a < endO
      · simp [h1, h2]
      · simp [h1, h2]
    · simp [h1]
  have hobj2 : objects = ((c.object_map.map Prod.fst).filter
      (fun oid => decide (start ≤ oid ∧ oid < endO))).take limit := by
    rw [hobj, listLoop_fst, Nat.sub_zero, hmapd, htw, hcomb]
  refine ⟨hobj2, ?_, ?_, ?_, ?_⟩
  · rw [hobj2]
    exact (hkeysorted.filter _).sublist (List.take_sublist _ _)
  · rw [hobj2]
    exact List.length_take_le _ _
  · obtain ⟨tail, htail, hcases⟩ := listLoop_tail endO limit
      (c.object_map.dropWhile (fun kv => decide (kv.1 < start))) 0
    refine ⟨tail, ?_, ?_⟩
    · rw [hobj]
      exact htail
    · rw [hnext]
      exact hcases
  · intro hlim hnt
    refine ⟨c.object_map.length + 1, ?_⟩
    exact paginate_exact c limit hlim hsorted hnt (c.object_map.length + 1)
      ((0 : Nat) : Oid) c.object_map (dropWhile_lt_zero_oid c.object_map)
      (Nat.lt_succ_self _)

/-- C3 counterexample: with `limit = 0` on a nonempty collection, the
returned page is always empty and the cursor is a fixed point, so
repeated calls feeding the cursor back as `start` never enumerate any
object — the claim is false for `limit = 0`. -/
theorem c3_list_objects_counterexample :
    wColl.object_map.map Prod.fst = [((4 : Nat) : Oid)] ∧
    CyanStore.list_objects wColl ((0 : Nat) : Oid) ghobject_get_max 0 =
      ([], ((4 : Nat) : Oid)) ∧
    CyanStore.list_objects wColl ((4 : Nat) : Oid) ghobject_get_max 0 =
      ([], ((4 : Nat) : Oid)) ∧
    paginate wColl 0 ((0 : Nat) : Oid) 50 = ([], ((4 : Nat) : Oid)) := by
  refine ⟨by decide, by decide, by decide, by decide⟩

theorem c3_list_objects_witness :
    CyanStore.list_objects wColl ((0 : Nat) : Oid) ghobject_get_max 5 =
      ([((4 : Nat) : Oid)], ghobject_get_max) ∧
    ∃ n, paginate wColl 1 ((0 : Nat) : Oid) n =
      (wColl.object_map.map Prod.fst, ghobject_get_max) := by
  constructor
  · decide
  · exact (c3_list_objects wColl ((0 : Nat) : Oid) ghobject_get_max 1
      [((4 : Nat) : Oid)] ghobject_get_max (by decide) (by decide)).2.2.2.2
      (by decide) (by decide)

/-! ### C8: mkfs fsid handling -/

theorem alookup_map_set_self (l : List (String × Str)) (k : String) (v : Str)
    (hp : (alookup l k).isSome) :
    alookup (l.map (fun kv : String × Str => if kv.1 = k then (k, v) else kv)) k = some v := by
  induction l with
  | nil => simp [alookup] at hp
  | cons kv rest ih =>
    rw [List.map_cons]
    by_cases hk : kv.1 = k
    · rw [if_pos hk, alookup_cons, if_pos rfl]
    · rw [if_neg hk, alookup_cons, if_neg hk]
      apply ih
      rw [alookup_cons, if_neg hk] at hp
      exact hp

theorem alookup_map_set_ne (l : List (String × Str)) (k k' : String) (v : Str) (h : k ≠ k') :
    alookup (l.map (fun kv : String × Str => if kv.1 = k then (k, v) else kv)) k'
      = alookup l k' := by
  induction l with
  | nil => rfl
  | cons kv rest ih =>
    rw [List.map_cons]
    by_cases hk : kv.1 = k
    · rw [if_pos hk, alookup_cons, alookup_cons, if_neg h,
        if_neg (show kv.1 ≠ k' by rw [hk]; exact h), ih]
    · rw [if_neg hk, alookup_cons, alookup_cons]
      by_cases hk' : kv.1 = k'
      · rw [if_pos hk', if_pos hk']
      · rw [if_neg hk', if_neg hk', ih]

theorem alookup_append_single_self (l : List (String × Str)) (k : String) (v : Str)
    (hp : alookup l k = none) :
    alookup (l ++ [(k, v)]) k = some v := by
  induction l with
  | nil => rw [List.nil_append, alookup_cons, if_pos rfl]
  | cons kv rest ih =>
    rw [alookup_cons] at hp
    by_cases hk : kv.1 = k
    · rw [if_pos hk] at hp
      exact absurd hp (by simp)
    · rw [if_neg hk] at hp
      rw [List.cons_append, alookup_cons, if_neg hk]
      exact ih hp

theorem alookup_append_single_ne (l : List (String × Str)) (k k' : String) (v : Str)
    (h : k ≠ k') :
    alookup (l ++ [(k, v)]) k' = alookup l k' := by
  induction l with
  | nil => rw [List.nil_append, alookup_cons, if_neg h]
  | cons kv rest ih =>
    rw [List.cons_append, alookup_cons, alookup_cons]
    by_cases hk' : kv.1 = k'
    · rw [if_pos hk', if_pos hk']
    · rw [if_neg hk', if_neg hk', ih]

theorem alookup_fset_self (l : List (String × Str)) (k : String) (v : Str) :
    alookup (fset l k v) k = some v := by
  unfold fset
  by_cases hp : (alookup l k).isSome
  · rw [if_pos hp]
    exact alookup_map_set_self l k v hp
  · rw [if_neg hp]
    exact alookup_append_single_self l k v (Option.not_isSome_iff_eq_none.mp hp)

theorem alookup_fset_ne (l : List (String × Str)) (k k' : String) (v : Str) (h : k ≠ k') :
    alookup (fset l k v) k' = alookup l k' := by
  unfold fset
  by_cases hp : (alookup l k).isSome
  · rw [if_pos hp]
    exact alookup_map_set_ne l k k' v h
  · rw [if_neg hp]
    exact alookup_append_single_ne l k k' v h

theorem trimRightWS_append_newline (s : Str)
    (hnw : s.reverse.dropWhile isspaceB = s.reverse) :
    trimRightWS (s ++ [10]) = s := by
  unfold trimRightWS
  rw [List.reverse_append]
  rw [show ([10] : Str).reverse ++ s.reverse = 10 :: s.reverse from rfl]
  rw [List.dropWhile_cons_of_pos (by decide : isspaceB 10 = true)]
  rw [hnw, List.reverse_reverse]

theorem mkfs_absent (s : MkfsState) (fsid : Str)
    (habsent : alookup s.files "fsid" = none) :
    CyanStore.mkfs s fsid = .ok
      (CyanStore.write_meta
        { CyanStore.write_meta
            { s with osd_fsid := if fsid = [] then uuid_generate_random else fsid } "fsid"
            (if fsid = [] then uuid_generate_random else fsid) with
          files := fset (CyanStore.write_meta
            { s with osd_fsid := if fsid = [] then uuid_generate_random else fsid } "fsid"
            (if fsid = [] then uuid_generate_random else fsid)).files "collections"
            encoded_empty_coll_set }
        "type" memstore_marker) := by
  have hread : CyanStore.read_meta s "fsid" = (-2, []) := by
    unfold CyanStore.read_meta
    rw [habsent]
  simp only [CyanStore.mkfs]
  rw [hread]
  rw [if_pos (show ((-2 : Int), ([] : Str)).1 = -2 from rfl)]
  rfl

theorem mkfs_present (t : MkfsState) (v fsid2 : Str)
    (hv : alookup t.files "fsid" = some v) (hvne : v ≠ []) (htne : trimRightWS v ≠ []) :
    (trimRightWS v = fsid2 →
      CyanStore.mkfs t fsid2 = .ok (CyanStore.write_meta
        { { t with osd_fsid := trimRightWS v } with
            files := fset { t with osd_fsid := trimRightWS v }.files "collections"
              encoded_empty_coll_set } "type" memstore_marker)) ∧
    (trimRightWS v ≠ fsid2 → CyanStore.mkfs t fsid2 = .error "unmatched osd_fsid") := by
  have hlen : 0 < v.length := List.length_pos.mpr hvne
  have hread : CyanStore.read_meta t "fsid" = ((v.length : Int), trimRightWS v) := by
    unfold CyanStore.read_meta
    rw [hv]
    exact if_pos hlen
  have hne2 : ¬((v.length : Int) = -2) := by omega
  have hnlt : ¬((v.length : Int) < 0) := by omega
  have hparse : uuid_parse (trimRightWS v) = some (trimRightWS v) := by
    unfold uuid_parse
    rw [if_neg htne]
  constructor
  · intro heq
    simp only [CyanStore.mkfs]
    rw [hread]
    dsimp only
    rw [if_neg hne2, if_neg hnlt, hparse]
    dsimp only
    rw [if_neg (not_not_intro heq)]
    rfl
  · intro hneq
    simp only [CyanStore.mkfs]
    rw [hread]
    dsimp only
    rw [if_neg hne2, if_neg hnlt, hparse]
    dsimp only
    rw [if_pos hneq]
    rfl

/-- C8 (spec-modelled meta layer): `mkfs` with a persisted fsid absent
adopts the caller-supplied identifier (or generates one when the supplied
identifier is zero, modelled by the empty string) and persists it under
the `fsid` meta file with a trailing newline; when a persisted fsid is
present, `mkfs` succeeds exactly when the trimmed on-disk identifier
equals the caller-supplied one and otherwise fails with the
`unmatched osd_fsid` error; consequently `mkfs` called twice with the
same (newline-clean, nonzero) identifier succeeds both times, while a
second call with any different identifier fails. -/
theorem c8_mkfs_fsid (s : MkfsState) (fsid : Str)
    (habsent : alookup s.files "fsid" = none)
    (hnz : fsid ≠ [])
    (hnw : fsid.reverse.dropWhile isspaceB = fsid.reverse) :
    (∃ s1, CyanStore.mkfs s fsid = .ok s1 ∧
      s1.osd_fsid = fsid ∧
      alookup s1.files "fsid" = some (fsid ++ [10]) ∧
      (∃ s2, CyanStore.mkfs s1 fsid = .ok s2 ∧ s2.osd_fsid = fsid) ∧
      (∀ fsid2, fsid2 ≠ fsid →
        CyanStore.mkfs s1 fsid2 = .error "unmatched osd_fsid")) ∧
    (∃ s0, CyanStore.mkfs s [] = .ok s0 ∧ s0.osd_fsid = uuid_generate_random) ∧
    (∀ (t : MkfsState) (v fsid2 : Str), alookup t.files "fsid" = some v → v ≠ [] →
      trimRightWS v ≠ [] →
      ((∃ t2, CyanStore.mkfs t fsid2 = .ok t2) ↔ trimRightWS v = fsid2) ∧
      (trimRightWS v ≠ fsid2 →
        CyanStore.mkfs t fsid2 = .error "unmatched osd_fsid")) := by
  have habs := mkfs_absent s fsid habsent
  rw [if_neg hnz] at habs
  have htrim : trimRightWS (fsid ++ [10]) = fsid := trimRightWS_append_newline fsid hnw
  have h1 : ("type" : String) ≠ "fsid" := by decide
  have h2 : ("collections" : String) ≠ "fsid" := by decide
  have hvne : fsid ++ [10] ≠ ([] : Str) := by simp
  have htne : trimRightWS (fsid ++ [10]) ≠ [] := by
    rw [htrim]
    exact hnz
  refine ⟨⟨_, habs, rfl, ?_, ?_, ?_⟩, ?_, ?_⟩
  · show alookup (fset (fset (fset s.files "fsid" (fsid ++ [10])) "collections"
      encoded_empty_coll_set) "type" (memstore_marker ++ [10])) "fsid" = some (fsid ++ [10])
    rw [alookup_fset_ne _ _ _ _ h1, alookup_fset_ne _ _ _ _ h2, alookup_fset_self]
  · refine ⟨_, (mkfs_present _ (fsid ++ [10]) fsid ?_ hvne htne).1 htrim, htrim⟩
    show alookup (fset (fset (fset s.files "fsid" (fsid ++ [10])) "collections"
      encoded_empty_coll_set) "type" (memstore_marker ++ [10])) "fsid" = some (fsid ++ [10])
    rw [alookup_fset_ne _ _ _ _ h1, alookup_fset_ne _ _ _ _ h2, alookup_fset_self]
  · intro fsid2 hne
    refine (mkfs_present _ (fsid ++ [10]) fsid2 ?_ hvne htne).2 ?_
    · show alookup (fset (fset (fset s.files "fsid" (fsid ++ [10])) "collections"
        encoded_empty_coll_set) "type" (memstore_marker ++ [10])) "fsid" = some (fsid ++ [10])
      rw [alookup_fset_ne _ _ _ _ h1, alookup_fset_ne _ _ _ _ h2, alookup_fset_self]
    · rw [htrim]
      exact Ne.symm hne
  · have habs0 := mkfs_absent s [] habsent
    rw [if_pos rfl] at habs0
    exact ⟨_, habs0, rfl⟩
  · intro t v fsid2 hv hvne' htne'
    have hp := mkfs_present t v fsid2 hv hvne' htne'
    refine ⟨⟨?_, ?_⟩, hp.2⟩
    · rintro ⟨t2, ht2⟩
      by_contra hneq
      rw [hp.2 hneq] at ht2
      simp at ht2
    · intro heq
      exact ⟨_, hp.1 heq⟩

theorem c8_mkfs_fsid_witness :
    (∃ s1, CyanStore.mkfs ⟨[], []⟩ [97, 98] = .ok s1 ∧
      s1.osd_fsid = [97, 98] ∧
      alookup s1.files "fsid" = some ([97, 98] ++ [10]) ∧
      (∃ s2, CyanStore.mkfs s1 [97, 98] = .ok s2 ∧ s2.osd_fsid = [97, 98]) ∧
      (∀ fsid2, fsid2 ≠ [97, 98] →
        CyanStore.mkfs s1 fsid2 = .error "unmatched osd_fsid")) ∧
    (∃ s0, CyanStore.mkfs ⟨[], []⟩ [] = .ok s0 ∧
      s0.osd_fsid = uuid_generate_random) :=
  ⟨(c8_mkfs_fsid ⟨[], []⟩ [97, 98] (by decide) (by decide) (by decide)).1,
   (c8_mkfs_fsid ⟨[], []⟩ [97, 98] (by decide) (by decide) (by decide)).2.1⟩
